import Mathlib

/-!
A verification development for the HFTPerformance matching core.

The definitions below are a shallow embedding of the C++ sources:
  - src/core/types.hpp        (Side, OrderType, OrderStatus, ExecutionType,
                               INVALID_ORDER_ID, make_symbol, symbol_view)
  - src/matching/order.hpp    (Order, ExecutionReport, OrderIdGenerator)
  - src/matching/price_level.hpp (PriceLevel)
  - src/matching/order_book.hpp  (OrderBook: add_order, cancel_order,
                               modify_order, match_buy_order, match_sell_order,
                               add_to_book, remove_from_book)
  - src/matching/matching_engine.hpp (MatchingEngine: add_instrument,
                               submit_order, cancel_order, modify_order, get_book)
  - src/core/lockfree_queue.hpp  (SPSCQueue, modelled sequentially)
  - src/core/timing.hpp       (LatencyStats::percentile, modelled over rationals)

Machine integers: Price and Quantity are int64_t in the source; they are
modelled as unbounded Int (no arithmetic in the modelled operations comes
near the 64-bit range for the inputs considered).  OrderId is uint64_t; the
id counter is modelled as an unbounded Nat and the value handed out is
reduced mod 2^64, which is exactly the fetch_add semantics.
Timestamps (entry_time, update_time, report timestamps) are wall-clock reads
and are omitted: no claim below depends on them.
-/

namespace HFT

/-- Side  (src/core/types.hpp). -/
inductive Side where
  | BUY
  | SELL
deriving DecidableEq, Repr

/-- OrderType  (src/core/types.hpp). -/
inductive OrderType where
  | LIMIT
  | MARKET
  | STOP_LIMIT
  | IMMEDIATE_OR_CANCEL
  | FILL_OR_KILL
  | POST_ONLY
deriving DecidableEq, Repr

/-- OrderStatus  (src/core/types.hpp). -/
inductive OrderStatus where
  | NEW
  | PARTIALLY_FILLED
  | FILLED
  | CANCELLED
  | REJECTED
  | EXPIRED
deriving DecidableEq, Repr

/-- ExecutionType  (src/core/types.hpp). -/
inductive ExecutionType where
  | NEW
  | TRADE
  | CANCELLED
  | REPLACED
  | REJECTED
deriving DecidableEq, Repr

/-- INVALID_ORDER_ID  (src/core/types.hpp line 46). -/
def INVALID_ORDER_ID : Nat := 0

/-- Order  (src/matching/order.hpp).  Timestamps and the reserved
flags/sequence_num/padding fields are omitted; nothing reads them. -/
structure Order where
  order_id : Nat
  price : Int
  quantity : Int
  filled_quantity : Int
  side : Side
  type : OrderType
  status : OrderStatus
  client_id : Nat
deriving DecidableEq, Repr

namespace Order

/-- Order::remaining_quantity  (order.hpp line 78). -/
def remainingQty (o : Order) : Int := o.quantity - o.filled_quantity

/-- Order::is_filled  (order.hpp line 82). -/
def isFilled (o : Order) : Prop := o.filled_quantity ≥ o.quantity

instance (o : Order) : Decidable o.isFilled := by unfold isFilled; infer_instance

/-- Order::is_active  (order.hpp line 86). -/
def isActive (o : Order) : Prop :=
  o.status = OrderStatus.NEW ∨ o.status = OrderStatus.PARTIALLY_FILLED

instance (o : Order) : Decidable o.isActive := by unfold isActive; infer_instance

/-- Order::fill  (order.hpp line 103). -/
def fill (o : Order) (qty : Int) : Order :=
  let f := o.filled_quantity + qty
  { o with
    filled_quantity := f
    status := if f ≥ o.quantity then OrderStatus.FILLED
              else OrderStatus.PARTIALLY_FILLED }

/-- Order::cancel  (order.hpp line 114). -/
def cancelO (o : Order) : Order := { o with status := OrderStatus.CANCELLED }

/-- Order::reject  (order.hpp line 119). -/
def rejectO (o : Order) : Order := { o with status := OrderStatus.REJECTED }

end Order

/-- ExecutionReport  (src/matching/order.hpp).  The timestamp field is
omitted. -/
structure ExecutionReport where
  order_id : Nat
  contra_order_id : Nat
  execution_price : Int
  execution_quantity : Int
  side : Side
  exec_type : ExecutionType
  order_status : OrderStatus
  client_id : Nat
  leaves_quantity : Int
  cumulative_quantity : Int
deriving DecidableEq, Repr

namespace ExecutionReport

/-- ExecutionReport::make_trade  (order.hpp line 203). -/
def makeTrade (o contra : Order) (price qty : Int) : ExecutionReport where
  order_id := o.order_id
  contra_order_id := contra.order_id
  execution_price := price
  execution_quantity := qty
  side := o.side
  exec_type := ExecutionType.TRADE
  order_status := o.status
  client_id := o.client_id
  leaves_quantity := o.remainingQty - qty
  cumulative_quantity := o.filled_quantity + qty

/-- ExecutionReport::make_new  (order.hpp line 220). -/
def makeNew (o : Order) : ExecutionReport where
  order_id := o.order_id
  contra_order_id := 0
  execution_price := o.price
  execution_quantity := 0
  side := o.side
  exec_type := ExecutionType.NEW
  order_status := OrderStatus.NEW
  client_id := o.client_id
  leaves_quantity := o.quantity
  cumulative_quantity := 0

/-- ExecutionReport::make_cancel  (order.hpp line 236). -/
def makeCancel (o : Order) : ExecutionReport where
  order_id := o.order_id
  contra_order_id := 0
  execution_price := o.price
  execution_quantity := 0
  side := o.side
  exec_type := ExecutionType.CANCELLED
  order_status := OrderStatus.CANCELLED
  client_id := o.client_id
  leaves_quantity := 0
  cumulative_quantity := o.filled_quantity

end ExecutionReport

/-- PriceLevel  (src/matching/price_level.hpp).  The intrusive doubly-linked
list of OrderNodes is modelled as the list of the orders it holds, in FIFO
order; total_quantity and order_count are the stored aggregate fields (they
are maintained by the operations below exactly as the source maintains them,
and are not recomputed from the orders). -/
structure PriceLevel where
  price : Int
  orders : List Order
  total_quantity : Int
  order_count : Nat
deriving DecidableEq, Repr

namespace PriceLevel

/-- PriceLevel::add_order  (price_level.hpp line 71): append at the tail,
total_quantity += remaining, ++order_count. -/
def addOrder (l : PriceLevel) (o : Order) : PriceLevel :=
  { l with
    orders := l.orders ++ [o]
    total_quantity := l.total_quantity + o.remainingQty
    order_count := l.order_count + 1 }

/-- A fresh level holding one order, as produced by
OrderBook::add_to_book via try_emplace(price) followed by add_order. -/
def single (o : Order) : PriceLevel :=
  { price := o.price, orders := [o], total_quantity := o.remainingQty,
    order_count := 1 }

/-- PriceLevel::remove_order  (price_level.hpp line 90), addressed by order
id (the C++ passes the node handle; on the states the book reaches, ids are
unique, so the id identifies the node). -/
def removeOrderById (l : PriceLevel) (oid : Nat) : PriceLevel :=
  match l.orders.find? (fun o => o.order_id == oid) with
  | none => l
  | some o =>
      { l with
        orders := l.orders.eraseP (fun x => x.order_id == oid)
        total_quantity := l.total_quantity - o.remainingQty
        order_count := l.order_count - 1 }

end PriceLevel

/-- The observable state of one OrderBook (src/matching/order_book.hpp).
bids_ and asks_ are std::map price → PriceLevel, bids keyed descending and
asks ascending; they are modelled as the lists of levels in the map's
iteration order (bids: strictly decreasing price, asks: strictly
increasing).  order_index_ maps ids to node pointers; on every state the
book's operations produce, its contents are exactly the orders resting in
the levels, so the index is represented by the levels themselves (lookups
scan the levels).  order_pool_ is a fixed-capacity pool; only its free-slot
count is observable, kept in poolFree. -/
structure BookState where
  bids : List PriceLevel
  asks : List PriceLevel
  poolFree : Nat
  trades_matched : Nat
  volume_matched : Int
deriving DecidableEq, Repr

/-- Result of one level-inner matching loop (the inner while of
OrderBook::match_buy_order / match_sell_order, order_book.hpp
lines 318-347 and 368-396). -/
structure LevelMatch where
  agg : Order
  orders : List Order
  tot : Int
  cnt : Nat
  reports : List ExecutionReport
  freed : Nat
  trades : Nat
  volume : Int
deriving Repr

/-- Result of the full matching loop against the opposite side (the outer
while of OrderBook::match_buy_order / match_sell_order). -/
structure MatchResult where
  agg : Order
  levels : List PriceLevel
  reports : List ExecutionReport
  freed : Nat
  trades : Nat
  volume : Int
deriving Repr

/-- The inner while loop of match_buy_order/match_sell_order
(order_book.hpp lines 318-347): while the level has orders and the
aggressor has remaining quantity, fill against the front order; reports are
emitted after both fills are applied; a fully filled passive order is
popped (remove_order subtracts its post-fill remaining and decrements the
count) and destroyed (freeing a pool slot).
When the front order is not fully filled by the fill, its post-fill
remaining is positive, which forces fill = aggressor.remaining, so the
aggressor's remaining becomes 0 and the C++ loop exits; the
non-popped branch below therefore returns. -/
def matchLevel (agg : Order) : List Order → Int → Nat → LevelMatch
  | [], tot, cnt => ⟨agg, [], tot, cnt, [], 0, 0, 0⟩
  | passive :: rest, tot, cnt =>
    if agg.remainingQty ≤ 0 then ⟨agg, passive :: rest, tot, cnt, [], 0, 0, 0⟩
    else
      let f := min agg.remainingQty passive.remainingQty
      let px := passive.price
      let agg1 := agg.fill f
      let pas1 := passive.fill f
      let reps := [ExecutionReport.makeTrade agg1 pas1 px f,
                   ExecutionReport.makeTrade pas1 agg1 px f]
      if pas1.isFilled then
        let r := matchLevel agg1 rest (tot - f - pas1.remainingQty) (cnt - 1)
        ⟨r.agg, r.orders, r.tot, r.cnt, reps ++ r.reports,
         r.freed + 1, r.trades + 1, r.volume + f⟩
      else
        ⟨agg1, pas1 :: rest, tot - f, cnt, reps, 0, 1, f⟩

/-- Price check of the outer matching loop: a BUY stops when its price is
below the best ask (order_book.hpp line 315), a SELL stops when its price
is above the best bid (line 365).  The source applies this check to every
order type. -/
def priceStops (agg : Order) (levelPrice : Int) : Prop :=
  match agg.side with
  | Side.BUY => agg.price < levelPrice
  | Side.SELL => agg.price > levelPrice

instance (agg : Order) (p : Int) : Decidable (priceStops agg p) := by
  unfold priceStops; cases agg.side <;> infer_instance

/-- The outer while loop of match_buy_order/match_sell_order
(order_book.hpp lines 309-352): take the best opposite level, stop if the
price check fails, run the inner loop, erase the level if it became empty.
When the inner loop leaves the level non-empty, the aggressor has remaining
quantity 0 (see matchLevel) and the C++ loop exits on its guard. -/
def matchSide (agg : Order) : List PriceLevel → MatchResult
  | [] => ⟨agg, [], [], 0, 0, 0⟩
  | lvl :: rest =>
    if agg.remainingQty ≤ 0 then ⟨agg, lvl :: rest, [], 0, 0, 0⟩
    else if priceStops agg lvl.price then ⟨agg, lvl :: rest, [], 0, 0, 0⟩
    else
      let r := matchLevel agg lvl.orders lvl.total_quantity lvl.order_count
      if r.orders.isEmpty then
        let r2 := matchSide r.agg rest
        ⟨r2.agg, r2.levels, r.reports ++ r2.reports, r.freed + r2.freed,
         r.trades + r2.trades, r.volume + r2.volume⟩
      else
        ⟨r.agg,
         { lvl with orders := r.orders, total_quantity := r.tot,
                    order_count := r.cnt } :: rest,
         r.reports, r.freed, r.trades, r.volume⟩

/-- Insertion into the ask map (ascending price order) followed by
PriceLevel::add_order — OrderBook::add_to_book, order_book.hpp
lines 423-425. -/
def insertAsk (o : Order) : List PriceLevel → List PriceLevel
  | [] => [PriceLevel.single o]
  | l :: rest =>
    if o.price < l.price then PriceLevel.single o :: l :: rest
    else if o.price = l.price then l.addOrder o :: rest
    else l :: insertAsk o rest

/-- Insertion into the bid map (descending price order) followed by
PriceLevel::add_order — OrderBook::add_to_book, order_book.hpp
lines 420-422. -/
def insertBid (o : Order) : List PriceLevel → List PriceLevel
  | [] => [PriceLevel.single o]
  | l :: rest =>
    if o.price > l.price then PriceLevel.single o :: l :: rest
    else if o.price = l.price then l.addOrder o :: rest
    else l :: insertBid o rest

/-- Removal path of OrderBook::remove_from_book (order_book.hpp
lines 432-450): find the level at the order's price, unlink the order,
erase the level if it became empty. -/
def removeFromLevels (p : Int) (oid : Nat) : List PriceLevel → List PriceLevel
  | [] => []
  | l :: rest =>
    if l.price = p then
      let l1 := l.removeOrderById oid
      if l1.orders.isEmpty then rest else l1 :: rest
    else l :: removeFromLevels p oid rest

/-- Lookup of an order id across a side's levels (the order_index_ of the
book: on reachable states the index holds exactly the resting orders). -/
def findInLevels (oid : Nat) : List PriceLevel → Option Order
  | [] => none
  | l :: rest =>
    match l.orders.find? (fun o => o.order_id == oid) with
    | some o => some o
    | none => findInLevels oid rest

/-- In-place quantity update used by the in-place branch of
OrderBook::modify_order: set the quantity of the order with the given id at
the level with the given price, preserving its position.  The level's
total_quantity is NOT touched: OrderBook::update_level_quantity
(order_book.hpp lines 455-459) is a no-op. -/
def setQtyInOrders (oid : Nat) (q : Int) : List Order → List Order
  | [] => []
  | o :: rest =>
    if o.order_id == oid then { o with quantity := q } :: rest
    else o :: setQtyInOrders oid q rest

def setQtyInLevels (p : Int) (oid : Nat) (q : Int) :
    List PriceLevel → List PriceLevel
  | [] => []
  | l :: rest =>
    if l.price = p then { l with orders := setQtyInOrders oid q l.orders } :: rest
    else l :: setQtyInLevels p oid q rest

/-- Result of a top-level book operation: the returned bool, the new state,
and the execution reports delivered to the callback, in order. -/
structure OpResult where
  ok : Bool
  book : BookState
  reports : List ExecutionReport
deriving Repr

namespace BookState

/-- The empty book with the full pool (MAX_ORDERS = 1'000'000). -/
def empty : BookState :=
  { bids := [], asks := [], poolFree := 1000000, trades_matched := 0,
    volume_matched := 0 }

/-- OrderBook::match_order (order_book.hpp line 408) applied to the book:
BUY matches against asks, SELL against bids; filled passive orders free
pool slots and update the statistics counters. -/
def afterMatch (b : BookState) (o : Order) : Order × BookState × List ExecutionReport :=
  match o.side with
  | Side.BUY =>
      let r := matchSide o b.asks
      (r.agg,
       { b with asks := r.levels, poolFree := b.poolFree + r.freed,
                trades_matched := b.trades_matched + r.trades,
                volume_matched := b.volume_matched + r.volume },
       r.reports)
  | Side.SELL =>
      let r := matchSide o b.bids
      (r.agg,
       { b with bids := r.levels, poolFree := b.poolFree + r.freed,
                trades_matched := b.trades_matched + r.trades,
                volume_matched := b.volume_matched + r.volume },
       r.reports)

/-- OrderBook::add_to_book (order_book.hpp line 419). -/
def addToBook (b : BookState) (o : Order) : BookState :=
  match o.side with
  | Side.BUY => { b with bids := insertBid o b.bids }
  | Side.SELL => { b with asks := insertAsk o b.asks }

/-- OrderBook::add_order (order_book.hpp lines 73-109).
Pool exhaustion: emit make_cancel of the rejected order and return false.
Otherwise: allocate, emit NEW, match unless POST_ONLY, then either rest the
remainder (if positive and the order is active), or destroy the node
(if remaining is 0), and return true. -/
def addOrder (b : BookState) (o : Order) : OpResult :=
  if b.poolFree = 0 then
    ⟨false, b, [ExecutionReport.makeCancel o.rejectO]⟩
  else
    let b0 : BookState := { b with poolFree := b.poolFree - 1 }
    let m := if o.type = OrderType.POST_ONLY then (o, b0, ([] : List ExecutionReport))
             else b0.afterMatch o
    let o1 := m.1
    let b1 := m.2.1
    let reps := ExecutionReport.makeNew o :: m.2.2
    if 0 < o1.remainingQty ∧ o1.isActive then
      ⟨true, b1.addToBook o1, reps⟩
    else if o1.remainingQty = 0 then
      ⟨true, { b1 with poolFree := b1.poolFree + 1 }, reps⟩
    else
      ⟨true, b1, reps⟩

/-- Order-id index lookup (order_index_): scan bids then asks. -/
def findOrder (b : BookState) (oid : Nat) : Option Order :=
  match findInLevels oid b.bids with
  | some o => some o
  | none => findInLevels oid b.asks

/-- OrderBook::cancel_order (order_book.hpp lines 118-140). -/
def cancelOrder (b : BookState) (oid : Nat) : OpResult :=
  match b.findOrder oid with
  | none => ⟨false, b, []⟩
  | some o =>
      let oc := o.cancelO
      let b1 :=
        match oc.side with
        | Side.BUY => { b with bids := removeFromLevels oc.price oid b.bids }
        | Side.SELL => { b with asks := removeFromLevels oc.price oid b.asks }
      ⟨true, { b1 with poolFree := b1.poolFree + 1 },
       [ExecutionReport.makeCancel oc]⟩

/-- OrderBook::modify_order (order_book.hpp lines 145-171).
If the price is unchanged and new_quantity < remaining, the source sets
order.quantity := filled_quantity + new_quantity in place and calls the
no-op update_level_quantity.  Otherwise it cancels with a null callback
(reports discarded) and re-adds a fresh order with the same id, side, type
and client. -/
def modifyOrder (b : BookState) (oid : Nat) (newPrice newQty : Int) : OpResult :=
  match b.findOrder oid with
  | none => ⟨false, b, []⟩
  | some o =>
      if newPrice = o.price ∧ newQty < o.remainingQty then
        let b1 :=
          match o.side with
          | Side.BUY =>
              { b with bids := setQtyInLevels o.price oid (o.filled_quantity + newQty) b.bids }
          | Side.SELL =>
              { b with asks := setQtyInLevels o.price oid (o.filled_quantity + newQty) b.asks }
        ⟨true, b1, []⟩
      else
        let c := b.cancelOrder oid
        let o2 : Order :=
          { order_id := oid, price := newPrice, quantity := newQty,
            filled_quantity := 0, side := o.side, type := o.type,
            status := OrderStatus.NEW, client_id := o.client_id }
        c.book.addOrder o2

/-- OrderBook::best_bid (order_book.hpp line 184). -/
def bestBid (b : BookState) : Option Int := b.bids.head?.map PriceLevel.price

/-- OrderBook::best_ask (order_book.hpp line 192). -/
def bestAsk (b : BookState) : Option Int := b.asks.head?.map PriceLevel.price

end BookState

/-! Symbol utilities (src/core/types.hpp lines 172-181).  A Symbol is a
16-byte NUL-padded array; bytes are modelled as Nat. -/

/-- make_symbol: copy min(str.size, 15) bytes into a zero-initialised
16-byte array. -/
def makeSymbol (s : List Nat) : List Nat :=
  s.take (min s.length 15) ++ List.replicate (16 - min s.length 15) 0

/-- symbol_view: string_view(sym.data()) reads the NUL-terminated character
span, i.e. the bytes before the first 0. -/
def symbolView (sym : List Nat) : List Nat := sym.takeWhile (· ≠ 0)

/-! MatchingEngine (src/matching/matching_engine.hpp).  books_ is an
unordered_map keyed by std::string(symbol_view(symbol)); it is modelled as
an association list keyed by the byte sequence symbol_view produces.
id_generator_ is an OrderIdGenerator starting at 1 (order.hpp line 171);
next() is fetch_add on a uint64, so the returned id is the counter value
mod 2^64. -/

structure Engine where
  books : List (List Nat × BookState)
  nextId : Nat
  ordersReceived : Nat
  ordersRejected : Nat
  ordersCancelled : Nat
deriving Repr

namespace Engine

def lookupBook (key : List Nat) : List (List Nat × BookState) → Option BookState
  | [] => none
  | (k, b) :: rest => if k = key then some b else lookupBook key rest

def updateBook (key : List Nat) (b : BookState) :
    List (List Nat × BookState) → List (List Nat × BookState)
  | [] => []
  | (k, v) :: rest =>
    if k = key then (k, b) :: rest else (k, v) :: updateBook key b rest

/-- A fresh engine: no instruments, id counter at 1. -/
def init : Engine :=
  { books := [], nextId := 1, ordersReceived := 0, ordersRejected := 0,
    ordersCancelled := 0 }

/-- MatchingEngine::get_book (matching_engine.hpp lines 205-208): look the
book up under the key symbol_view(symbol). -/
def getBook (e : Engine) (sym : List Nat) : Option BookState :=
  lookupBook (symbolView sym) e.books

/-- MatchingEngine::add_instrument (matching_engine.hpp lines 103-110):
try_emplace under symbol_view(symbol); false on duplicates. -/
def addInstrument (e : Engine) (sym : List Nat) : Bool × Engine :=
  match lookupBook (symbolView sym) e.books with
  | some _ => (false, e)
  | none => (true, { e with books := e.books ++ [(symbolView sym, BookState.empty)] })

/-- MatchingEngine::submit_order (matching_engine.hpp lines 123-152):
unknown symbol → INVALID_ORDER_ID (and no report); otherwise generate the
id, build the order and call OrderBook::add_order; if the book rejected
(pool exhaustion), return INVALID_ORDER_ID, else the id. -/
def submitOrder (e : Engine) (sym : List Nat) (side : Side) (type : OrderType)
    (price qty : Int) (client : Nat) : Nat × Engine × List ExecutionReport :=
  match lookupBook (symbolView sym) e.books with
  | none => (INVALID_ORDER_ID,
             { e with ordersReceived := e.ordersReceived + 1,
                      ordersRejected := e.ordersRejected + 1 }, [])
  | some b =>
      let oid := e.nextId % (2 ^ 64)
      let o : Order :=
        { order_id := oid, price := price, quantity := qty,
          filled_quantity := 0, side := side, type := type,
          status := OrderStatus.NEW, client_id := client }
      let r := b.addOrder o
      let e2 : Engine :=
        { e with ordersReceived := e.ordersReceived + 1, nextId := e.nextId + 1,
                 books := updateBook (symbolView sym) r.book e.books }
      if r.ok then (oid, e2, r.reports)
      else (INVALID_ORDER_ID,
            { e2 with ordersRejected := e2.ordersRejected + 1 }, r.reports)

/-- MatchingEngine::cancel_order (matching_engine.hpp lines 157-168). -/
def cancelOrder (e : Engine) (sym : List Nat) (oid : Nat) :
    Bool × Engine × List ExecutionReport :=
  match lookupBook (symbolView sym) e.books with
  | none => (false, e, [])
  | some b =>
      let r := b.cancelOrder oid
      let e1 : Engine := { e with books := updateBook (symbolView sym) r.book e.books }
      if r.ok then (true, { e1 with ordersCancelled := e1.ordersCancelled + 1 }, r.reports)
      else (false, e1, r.reports)

/-- One NEW_ORDER request, as routed by submit_order. -/
structure SubmitReq where
  sym : List Nat
  side : Side
  type : OrderType
  price : Int
  qty : Int
  client : Nat

/-- Run a sequence of submissions, collecting the returned ids. -/
def runSubmits (e : Engine) : List SubmitReq → Engine × List Nat
  | [] => (e, [])
  | r :: rest =>
      let s := e.submitOrder r.sym r.side r.type r.price r.qty r.client
      let t := runSubmits s.2.1 rest
      (t.1, s.1 :: t.2)

end Engine

/-! SPSCQueue (src/core/lockfree_queue.hpp), modelled sequentially: the
claims considered here are about the queue executed by one thread, where
the producer/consumer cached indices (cached_head_, cached_tail_) always
refresh to the true values, so the behaviour is that of the plain
head/tail comparison.  Capacity is statically asserted to be a power of
two and at least 2; for a power of two, masking with Capacity-1 is
reduction mod Capacity, which is how the index arithmetic is written
below. -/

structure SPSC (α : Type) where
  buffer : List α
  head : Nat
  tail : Nat
deriving Repr

namespace SPSC

variable {α : Type}

/-- increment (lockfree_queue.hpp line 173): (index + 1) & MASK. -/
def inc (Cap i : Nat) : Nat := (i + 1) % Cap

/-- SPSCQueue::try_push (lockfree_queue.hpp lines 57-76). -/
def tryPush (Cap : Nat) (q : SPSC α) (v : α) : Bool × SPSC α :=
  if inc Cap q.tail = q.head then (false, q)
  else (true, { q with buffer := q.buffer.set q.tail v, tail := inc Cap q.tail })

/-- SPSCQueue::try_pop (lockfree_queue.hpp lines 93-117). -/
def tryPop [Inhabited α] (Cap : Nat) (q : SPSC α) : Option α × SPSC α :=
  if q.head = q.tail then (none, q)
  else (some (q.buffer.getD q.head default), { q with head := inc Cap q.head })

/-- SPSCQueue::size (lockfree_queue.hpp lines 157-161): (tail - head) & MASK
(the uint64 subtraction followed by the power-of-two mask equals the modular
distance). -/
def size (Cap : Nat) (q : SPSC α) : Nat := (q.tail + Cap - q.head) % Cap

/-- The empty queue over a given backing store. -/
def start (buf : List α) : SPSC α := { buffer := buf, head := 0, tail := 0 }

/-- Push a list of values one try_push at a time, collecting results. -/
def pushList (Cap : Nat) (q : SPSC α) : List α → SPSC α × List Bool
  | [] => (q, [])
  | v :: rest =>
      let s := tryPush Cap q v
      let t := pushList Cap s.2 rest
      (t.1, s.1 :: t.2)

/-- Pop n times, collecting results. -/
def popList [Inhabited α] (Cap : Nat) (q : SPSC α) : Nat → SPSC α × List (Option α)
  | 0 => (q, [])
  | n + 1 =>
      let s := tryPop Cap q
      let t := popList Cap s.2 n
      (t.1, s.1 :: t.2)

/-- Abstraction: the elements currently in the queue, oldest first. -/
def contents (Cap : Nat) (q : SPSC α) [Inhabited α] : List α :=
  (List.range (size Cap q)).map (fun i => q.buffer.getD ((q.head + i) % Cap) default)

/-- Well-formedness: backing store of length Cap, indices in range. -/
def WF (Cap : Nat) (q : SPSC α) : Prop :=
  q.buffer.length = Cap ∧ q.head < Cap ∧ q.tail < Cap

end SPSC

/-! LatencyStats::percentile (src/core/timing.hpp lines 384-397), modelled
over ℚ.  The C++ computes in double; on the sample values used in the
theorems below every intermediate double value is exactly representable, so
the rational model coincides with the source.  static_cast<size_t>(rank)
truncates; for the non-negative ranks arising from 0 ≤ p this is the
floor.  std::sort produces the ascending rearrangement of the samples;
since sorted permutations of a list over a linear order coincide, any
sorting function denotes it, and a structurally recursive insertion sort is
used so that terms evaluate. -/

def insertSorted (x : ℚ) : List ℚ → List ℚ
  | [] => [x]
  | y :: rest => if x ≤ y then x :: y :: rest else y :: insertSorted x rest

def sortQ : List ℚ → List ℚ
  | [] => []
  | x :: rest => insertSorted x (sortQ rest)

/-- static_cast<std::size_t>(rank): truncation toward zero, which for the
non-negative ranks arising from 0 ≤ p is the floor num/den. -/
def truncIndex (q : ℚ) : Nat := (q.num / (q.den : Int)).toNat

def percentileQ (samples : List ℚ) (p : ℚ) : ℚ :=
  if samples = [] then 0
  else
    let sorted := sortQ samples
    let n := sorted.length
    let rank : ℚ := (p / 100) * ((n : ℚ) - 1)
    let lower : Nat := truncIndex rank
    let upper : Nat := min (lower + 1) (n - 1)
    let frac : ℚ := rank - (lower : ℚ)
    (sorted.getD lower 0) * (1 - frac) + (sorted.getD upper 0) * frac

/-! Book operation traces and well-formedness, used to state the book
invariants. -/

/-- A top-level order book operation. -/
inductive BookOp where
  | add (o : Order)
  | cancel (oid : Nat)
  | modify (oid : Nat) (newPrice newQty : Int)

/-- Apply one top-level operation (reports and return value dropped). -/
def stepOp (b : BookState) : BookOp → BookState
  | BookOp.add o => (b.addOrder o).book
  | BookOp.cancel oid => (b.cancelOrder oid).book
  | BookOp.modify oid p q => (b.modifyOrder oid p q).book

/-- Apply a sequence of top-level operations. -/
def runOps (b : BookState) : List BookOp → BookState
  | [] => b
  | op :: rest => runOps (stepOp b op) rest

/-- An order is marketable against the current book: a BUY at or above the
best ask, a SELL at or below the best bid (spec glossary). -/
def wouldCross (b : BookState) (o : Order) : Prop :=
  match o.side with
  | Side.BUY => ∃ l, b.asks.head?.elim False (· = l) ∧ l.price ≤ o.price
  | Side.SELL => ∃ l, b.bids.head?.elim False (· = l) ∧ o.price ≤ l.price

/-- Bid levels are kept in strictly descending price order (the iteration
order of the bids_ map). -/
def sortedDesc (ls : List PriceLevel) : Prop :=
  (ls.map PriceLevel.price).Chain' (fun a b => b < a)

/-- Ask levels are kept in strictly ascending price order (the iteration
order of the asks_ map). -/
def sortedAsc (ls : List PriceLevel) : Prop :=
  (ls.map PriceLevel.price).Chain' (fun a b => a < b)

/-- The book's sides are sorted as the maps keep them. -/
def BookSorted (b : BookState) : Prop := sortedDesc b.bids ∧ sortedAsc b.asks

/-- The no-cross-at-rest property: best_bid < best_ask whenever both
sides are non-empty. -/
def noCross (b : BookState) : Prop :=
  ∀ x y, b.bestBid = some x → b.bestAsk = some y → x < y

/-- Sorted sides plus no crossing: the state invariant of a settled book. -/
def BookWF (b : BookState) : Prop := BookSorted b ∧ noCross b

instance : IsTrans Int (fun a b => b < a) :=
  ⟨fun _ _ _ h1 h2 => lt_trans h2 h1⟩

/-- One operation is free of the crossing-POST_ONLY loophole: every
POST_ONLY order it inserts (by add_order directly, or by the
cancel-and-resubmit path of modify_order) is not marketable at insertion
time.  Orders handed to add_order are the freshly constructed ones the
engine and the tests build (status NEW, nothing filled). -/
def safeOp (b : BookState) : BookOp → Prop
  | BookOp.add o =>
      o.status = OrderStatus.NEW ∧ o.filled_quantity = 0 ∧
      (o.type = OrderType.POST_ONLY → ¬ wouldCross b o)
  | BookOp.cancel _ => True
  | BookOp.modify oid p q =>
      ∀ o, b.findOrder oid = some o →
        ¬ (p = o.price ∧ q < o.remainingQty) →
        o.type = OrderType.POST_ONLY →
        ¬ wouldCross (b.cancelOrder oid).book
            { order_id := oid, price := p, quantity := q, filled_quantity := 0,
              side := o.side, type := o.type, status := OrderStatus.NEW,
              client_id := o.client_id }

/-- Every operation of the trace is safe in the state it executes in. -/
def SafeTrace (b : BookState) : List BookOp → Prop
  | [] => True
  | op :: rest => safeOp b op ∧ SafeTrace (stepOp b op) rest

/-! Concrete fixtures used by the counterexample and code_bug theorems. -/

/-- A freshly constructed order, as Order's constructor builds it
(status NEW, filled_quantity 0). -/
def exOrder (oid : Nat) (side : Side) (type : OrderType) (price qty : Int) : Order :=
  { order_id := oid, price := price, quantity := qty, filled_quantity := 0,
    side := side, type := type, status := OrderStatus.NEW, client_id := 0 }

/-- The byte string TEST. -/
def exSym : List Nat := [84, 69, 83, 84]

/-- An empty book after resting one SELL LIMIT 100 x 10 (id 1). -/
def exBookAsk100 : BookState :=
  (BookState.empty.addOrder (exOrder 1 Side.SELL OrderType.LIMIT 100 10)).book

/-- An empty book after resting one BUY LIMIT 100 x 10 (id 1). -/
def exBookBid100 : BookState :=
  (BookState.empty.addOrder (exOrder 1 Side.BUY OrderType.LIMIT 100 10)).book

/-- A fresh engine with the TEST instrument registered. -/
def exEngine : Engine := (Engine.init.addInstrument exSym).2

/-- A two-operation trace: rest an ask at 100, then a bid at 90. -/
def exC3Ops : List BookOp :=
  [BookOp.add (exOrder 1 Side.SELL OrderType.LIMIT 100 10),
   BookOp.add (exOrder 2 Side.BUY OrderType.LIMIT 90 5)]

/-- Two submissions on the TEST instrument. -/
def exReqs : List Engine.SubmitReq :=
  [{ sym := exSym, side := Side.BUY, type := OrderType.LIMIT, price := 100,
     qty := 10, client := 0 },
   { sym := exSym, side := Side.SELL, type := OrderType.LIMIT, price := 101,
     qty := 5, client := 0 }]

/-- The order submit_order constructs: the next generated id (uint64
fetch_add), nothing filled, status NEW. -/
def Engine.mkOrder (e : Engine) (side : Side) (type : OrderType)
    (price qty : Int) (client : Nat) : Order :=
  { order_id := e.nextId % 2 ^ 64, price := price, quantity := qty,
    filled_quantity := 0, side := side, type := type,
    status := OrderStatus.NEW, client_id := client }

/-! The only read of an order's type on the add_order path is the POST_ONLY
test (order_book.hpp line 88): match_order, the price comparison and
add_to_book never consult it.  To state this as an equivalence between a
MARKET submission and the same submission retyped LIMIT, eraseTypes
projects away the one field on which the two runs can differ: the stored
type of the resting aggressor. -/

def Order.retype (o : Order) (t : OrderType) : Order := { o with type := t }

def PriceLevel.eraseTypes (l : PriceLevel) : PriceLevel :=
  { l with orders := l.orders.map (fun o => o.retype OrderType.LIMIT) }

def BookState.eraseTypes (b : BookState) : BookState :=
  { b with bids := b.bids.map PriceLevel.eraseTypes,
           asks := b.asks.map PriceLevel.eraseTypes }

/-! Theorems. -/

/-- The truncated index of a rational in [0, 1) is 0. -/
lemma truncIndex_of_lt_one (q : ℚ) (h0 : 0 ≤ q) (h1 : q < 1) : truncIndex q = 0 := by
  have hn : 0 ≤ q.num := Rat.num_nonneg.mpr h0
  have hdQ : (0:ℚ) < (q.den : ℚ) := by exact_mod_cast q.den_pos
  have hnum : (q.num : ℚ) = q * (q.den : ℚ) := by
    have h := Rat.num_div_den q
    rw [div_eq_iff (ne_of_gt hdQ)] at h
    exact h
  have hlt : (q.num : ℚ) < (q.den : ℚ) := by
    rw [hnum]
    calc q * (q.den : ℚ) < 1 * (q.den : ℚ) := mul_lt_mul_of_pos_right h1 hdQ
      _ = (q.den : ℚ) := one_mul _
  have hd : q.num < (q.den : Int) := by exact_mod_cast hlt
  unfold truncIndex
  rw [Int.ediv_eq_zero_of_lt hn hd]
  rfl

/-- The truncated index of a natural number is itself. -/
lemma truncIndex_natCast (k : Nat) : truncIndex (k : ℚ) = k := by
  simp [truncIndex]

/-- C1, counterexample.  A submission with qty = 0 (so qty ≤ 0) on a known
symbol returns the assigned id 1, not INVALID_ORDER_ID, and no REJECTED
report is emitted — contradicting the claim that qty ≤ 0 submissions
return INVALID_ORDER_ID with a REJECTED report. -/
theorem C1_cex :
    (exEngine.submitOrder exSym Side.BUY OrderType.LIMIT 100 0 0).1 = 1 ∧
    (exEngine.submitOrder exSym Side.BUY OrderType.LIMIT 100 0 0).1 ≠ INVALID_ORDER_ID ∧
    ((exEngine.submitOrder exSym Side.BUY OrderType.LIMIT 100 0 0).2.2.filter
        (fun rep => decide (rep.exec_type = ExecutionType.REJECTED))) = [] := by
  decide

/-- C4, code_bug.  In the single cross BUY LIMIT 100 x 10 resting versus
SELL LIMIT 100 x 10 aggressing, one fill of quantity 10 at price 100
produces exactly two TRADE reports, but each carries
leaves_quantity = -10 and cumulative_quantity = 20 instead of the post-fill
values 0 and 10: OrderBook::match_buy_order/match_sell_order apply
Order::fill to both orders before calling ExecutionReport::make_trade, and
make_trade subtracts/adds the fill quantity again. -/
theorem C4_trade_report_fields :
    ((exBookBid100.addOrder (exOrder 2 Side.SELL OrderType.LIMIT 100 10)).reports.map
      (fun rep => (rep.exec_type, rep.execution_price, rep.execution_quantity,
                   rep.leaves_quantity, rep.cumulative_quantity))) =
    [(ExecutionType.NEW, 100, 0, 10, 0),
     (ExecutionType.TRADE, 100, 10, -10, 20),
     (ExecutionType.TRADE, 100, 10, -10, 20)] := by
  decide

/-- C5, code_bug.  With BUY LIMIT 100 x 10 (id 1, nothing filled) resting,
modify_order(1, 100, 5) takes the in-place branch and sets the order's
quantity to 5, but the level's aggregate total_quantity stays 10 because
OrderBook::update_level_quantity is a no-op — the claim (and spec section 9)
require the aggregate to drop by the reduction amount. -/
theorem C5_modify_stale_aggregate :
    (exBookBid100.modifyOrder 1 100 5).ok = true ∧
    ((exBookBid100.modifyOrder 1 100 5).book.findOrder 1).map Order.quantity = some 5 ∧
    (exBookBid100.modifyOrder 1 100 5).book.bids.map PriceLevel.total_quantity = [10] := by
  decide

/-- C2, counterexample.  A MARKET BUY at price 50 for 10 against a book
whose only ask is LIMIT 100 x 10 matches nothing (the price-comparison step
is applied to it, contradicting the claimed skip) and then rests as a bid
at 50 (contradicting the claimed cancellation of the remainder). -/
theorem C2_cex :
    ((exBookAsk100.addOrder (exOrder 2 Side.BUY OrderType.MARKET 50 10)).reports.filter
        (fun rep => decide (rep.exec_type = ExecutionType.TRADE))) = [] ∧
    (exBookAsk100.addOrder (exOrder 2 Side.BUY OrderType.MARKET 50 10)).book.bestBid =
      some 50 ∧
    (exBookAsk100.addOrder (exOrder 2 Side.BUY OrderType.MARKET 50 10)).book.bestAsk =
      some 100 := by
  decide

/-- C3, counterexample.  After resting SELL LIMIT 100 x 10 and then adding
BUY POST_ONLY 101 x 10 (which skips the crossing loop and rests as-is),
both bests are defined with best_bid = 101 and best_ask = 100, so
best_bid < best_ask fails after a top-level operation returns. -/
theorem C3_cex :
    (exBookAsk100.addOrder (exOrder 3 Side.BUY OrderType.POST_ONLY 101 10)).book.bestBid =
      some 101 ∧
    (exBookAsk100.addOrder (exOrder 3 Side.BUY OrderType.POST_ONLY 101 10)).book.bestAsk =
      some 100 ∧
    ¬ ((101 : Int) < 100) := by
  decide

/-- C7, counterexample.  Submitting BUY LIMIT 100 x 5 against a book whose
only ask is LIMIT 100 x 10 fills the submitted order completely; the
opposite side is left at 5, so the subsequent cancel returns false and the
book does not return to its pre-submit state. -/
theorem C7_cex :
    ((exBookAsk100.addOrder (exOrder 2 Side.BUY OrderType.LIMIT 100 5)).book.cancelOrder 2).ok
      = false ∧
    ((exBookAsk100.addOrder (exOrder 2 Side.BUY OrderType.LIMIT 100 5)).book.cancelOrder 2).book
      ≠ exBookAsk100 := by
  decide

/-- C8, counterexample.  For samples {0, 10} and p = 50, the code returns
the interpolated value 5, which is not one of the recorded samples and is
not the element of the sorted samples at index floor(p(n-1)) = 0 (which is
0): LatencyStats::percentile interpolates linearly rather than taking the
nearest rank. -/
theorem C8_cex :
    percentileQ [0, 10] 50 = 5 ∧
    ¬ ((5 : ℚ) ∈ ([0, 10] : List ℚ)) ∧
    (sortQ [0, 10]).getD (truncIndex (((50 : ℚ) / 100) * ((2 : ℚ) - 1))) 0 = 0 := by
  have ht : truncIndex ((1:ℚ) / 2) = 0 :=
    truncIndex_of_lt_one _ (by norm_num) (by norm_num)
  refine ⟨?_, by decide, ?_⟩
  · simp only [percentileQ, sortQ, insertSorted]
    norm_num [ht]
    exact List.cons_ne_nil _ _
  · have h2 : ((50 : ℚ) / 100) * ((2 : ℚ) - 1) = 1 / 2 := by norm_num
    rw [h2, ht]
    norm_num [sortQ, insertSorted]

/-- OrderBook::add_order returns true unless the order pool is exhausted:
no validation of quantity, crossing POST_ONLY, or FOK fillability exists on
this path. -/
lemma addOrder_ok_iff (b : BookState) (o : Order) :
    (b.addOrder o).ok = true ↔ b.poolFree ≠ 0 := by
  unfold BookState.addOrder
  by_cases h : b.poolFree = 0
  · simp [h]
  · rw [if_neg h]
    simp only [apply_ite OpResult.ok, ite_self]
    simp [h]

/-- submit_order on a known symbol: the unfolded form. -/
lemma submitOrder_found (e : Engine) (sym : List Nat) (side : Side)
    (type : OrderType) (price qty : Int) (client : Nat) (b0 : BookState)
    (hb : Engine.lookupBook (symbolView sym) e.books = some b0) :
    e.submitOrder sym side type price qty client =
      (if (b0.addOrder (e.mkOrder side type price qty client)).ok = true
       then (e.nextId % 2 ^ 64,
             { e with ordersReceived := e.ordersReceived + 1,
                      nextId := e.nextId + 1,
                      books := Engine.updateBook (symbolView sym)
                        (b0.addOrder (e.mkOrder side type price qty client)).book
                        e.books },
             (b0.addOrder (e.mkOrder side type price qty client)).reports)
       else (INVALID_ORDER_ID,
             { e with ordersReceived := e.ordersReceived + 1,
                      nextId := e.nextId + 1,
                      books := Engine.updateBook (symbolView sym)
                        (b0.addOrder (e.mkOrder side type price qty client)).book
                        e.books,
                      ordersRejected := e.ordersRejected + 1 },
             (b0.addOrder (e.mkOrder side type price qty client)).reports)) := by
  unfold Engine.submitOrder
  rw [hb]
  rfl

/-- submit_order on an unknown symbol: reject, no reports. -/
lemma submitOrder_unknown (e : Engine) (sym : List Nat) (side : Side)
    (type : OrderType) (price qty : Int) (client : Nat)
    (hb : Engine.lookupBook (symbolView sym) e.books = none) :
    e.submitOrder sym side type price qty client =
      (INVALID_ORDER_ID,
       { e with ordersReceived := e.ordersReceived + 1,
                ordersRejected := e.ordersRejected + 1 }, []) := by
  unfold Engine.submitOrder
  rw [hb]

/-- C1, amended.  submit_order returns INVALID_ORDER_ID exactly when the
symbol is unknown or the book's order pool is exhausted; submissions with
qty ≤ 0, POST_ONLY orders that would cross, and FOK orders that cannot
fill are all accepted and return the assigned id.  On an unknown symbol no
report at all is emitted; on pool exhaustion the emitted report is the
make_cancel one (execution type CANCELLED), not a REJECTED report. -/
theorem C1_submit_invalid_iff (e : Engine) (sym : List Nat) (side : Side)
    (type : OrderType) (price qty : Int) (client : Nat)
    (hid : e.nextId % 2 ^ 64 ≠ 0) :
    ((e.submitOrder sym side type price qty client).1 = INVALID_ORDER_ID ↔
      (e.getBook sym = none ∨ ∃ b0, e.getBook sym = some b0 ∧ b0.poolFree = 0)) ∧
    (e.getBook sym = none → (e.submitOrder sym side type price qty client).2.2 = []) ∧
    (∀ b0, e.getBook sym = some b0 → b0.poolFree = 0 →
      (e.submitOrder sym side type price qty client).2.2 =
        [ExecutionReport.makeCancel
          (Order.rejectO (e.mkOrder side type price qty client))]) := by
  unfold Engine.getBook
  cases hb : Engine.lookupBook (symbolView sym) e.books with
  | none =>
      rw [submitOrder_unknown e sym side type price qty client hb]
      refine ⟨?_, fun _ => rfl, fun b0 hb0 _ => by simp at hb0⟩
      simp
  | some b0 =>
      rw [submitOrder_found e sym side type price qty client b0 hb]
      by_cases hok : (b0.addOrder (e.mkOrder side type price qty client)).ok = true
      · rw [if_pos hok]
        have hpf : b0.poolFree ≠ 0 := (addOrder_ok_iff _ _).mp hok
        refine ⟨?_, fun hc => by simp at hc, ?_⟩
        · simp only [INVALID_ORDER_ID]
          constructor
          · intro h0; exact absurd h0 hid
          · rintro (h0 | ⟨b1, hb1, hb1p⟩)
            · exact absurd h0 (by simp)
            · rw [Option.some_inj] at hb1
              exact absurd (hb1 ▸ hb1p) hpf
        · intro b1 hb1 hb1p
          rw [Option.some_inj] at hb1
          exact absurd (hb1 ▸ hb1p) hpf
      · rw [if_neg hok]
        have hpf : b0.poolFree = 0 := by
          by_contra hne
          exact hok ((addOrder_ok_iff _ _).mpr hne)
        refine ⟨?_, fun hc => by simp at hc, ?_⟩
        · exact ⟨fun _ => Or.inr ⟨b0, rfl, hpf⟩, fun _ => rfl⟩
        · intro b1 hb1 hb1p
          rw [Option.some_inj] at hb1
          rw [← hb1] at hb1p
          show (b0.addOrder (e.mkOrder side type price qty client)).reports = _
          unfold BookState.addOrder
          rw [if_pos hb1p]

/-- C1, witness: the amended theorem applied to the fresh engine with the
TEST instrument: the id counter is at 1 and the iff holds there. -/
theorem C1_witness :
    exEngine.nextId % 2 ^ 64 ≠ 0 ∧
    ((exEngine.submitOrder exSym Side.BUY OrderType.LIMIT 100 10 0).1 =
        INVALID_ORDER_ID ↔
      (exEngine.getBook exSym = none ∨
        ∃ b0, exEngine.getBook exSym = some b0 ∧ b0.poolFree = 0)) :=
  ⟨by decide,
   (C1_submit_invalid_iff exEngine exSym Side.BUY OrderType.LIMIT 100 10 0
     (by decide)).1⟩

/-! Helper lemmas for C2. -/

lemma retype_remainingQty (o : Order) (t : OrderType) :
    (o.retype t).remainingQty = o.remainingQty := rfl

lemma retype_fill (o : Order) (t : OrderType) (q : Int) :
    (o.retype t).fill q = (o.fill q).retype t := rfl

lemma retype_side (o : Order) (t : OrderType) : (o.retype t).side = o.side := rfl

lemma retype_price (o : Order) (t : OrderType) : (o.retype t).price = o.price := rfl

lemma retype_retype (o : Order) (t t' : OrderType) :
    (o.retype t).retype t' = o.retype t' := rfl

lemma priceStops_retype (o : Order) (t : OrderType) (p : Int) :
    priceStops (o.retype t) p = priceStops o p := rfl

lemma makeTrade_retype_left (o c : Order) (t : OrderType) (p q : Int) :
    ExecutionReport.makeTrade (o.retype t) c p q =
      ExecutionReport.makeTrade o c p q := rfl

lemma makeTrade_retype_right (o c : Order) (t : OrderType) (p q : Int) :
    ExecutionReport.makeTrade o (c.retype t) p q =
      ExecutionReport.makeTrade o c p q := rfl

/-- The inner matching loop never reads the aggressor's type: retyping the
aggressor retypes the returned aggressor and changes nothing else. -/
lemma matchLevel_retype (os : List Order) : ∀ (agg : Order) (tot : Int) (cnt : Nat),
    matchLevel (agg.retype OrderType.LIMIT) os tot cnt =
      { matchLevel agg os tot cnt with
        agg := (matchLevel agg os tot cnt).agg.retype OrderType.LIMIT } := by
  induction os with
  | nil => intro agg tot cnt; rfl
  | cons passive rest ih =>
      intro agg tot cnt
      unfold matchLevel
      simp only [retype_remainingQty, retype_fill, makeTrade_retype_left,
        makeTrade_retype_right]
      by_cases h0 : agg.remainingQty ≤ 0
      · rw [if_pos h0, if_pos h0]
      · rw [if_neg h0, if_neg h0]
        by_cases hf : (passive.fill (min agg.remainingQty passive.remainingQty)).isFilled
        · rw [if_pos hf, if_pos hf, ih]
        · rw [if_neg hf, if_neg hf]

/-- The outer matching loop never reads the aggressor's type either. -/
lemma matchSide_retype (ls : List PriceLevel) : ∀ (agg : Order),
    matchSide (agg.retype OrderType.LIMIT) ls =
      { matchSide agg ls with
        agg := (matchSide agg ls).agg.retype OrderType.LIMIT } := by
  induction ls with
  | nil => intro agg; rfl
  | cons lvl rest ih =>
      intro agg
      unfold matchSide
      simp only [retype_remainingQty, priceStops_retype]
      by_cases h0 : agg.remainingQty ≤ 0
      · rw [if_pos h0, if_pos h0]
      · rw [if_neg h0, if_neg h0]
        by_cases hs : priceStops agg lvl.price
        · rw [if_pos hs, if_pos hs]
        · rw [if_neg hs, if_neg hs]
          rw [matchLevel_retype]
          dsimp only
          by_cases he :
              (matchLevel agg lvl.orders lvl.total_quantity lvl.order_count).orders.isEmpty
          · rw [if_pos he, if_pos he, ih]
          · rw [if_neg he, if_neg he]

/-- match_order never reads the aggressor's type. -/
lemma afterMatch_retype (b : BookState) (o : Order) :
    b.afterMatch (o.retype OrderType.LIMIT) =
      ((b.afterMatch o).1.retype OrderType.LIMIT,
       (b.afterMatch o).2.1, (b.afterMatch o).2.2) := by
  unfold BookState.afterMatch
  cases ho : o.side
  all_goals simp only [retype_side, ho]
  all_goals rw [matchSide_retype]

lemma eraseTypes_addOrder_retype (l : PriceLevel) (o : Order) :
    (l.addOrder (o.retype OrderType.LIMIT)).eraseTypes = (l.addOrder o).eraseTypes := by
  simp [PriceLevel.addOrder, PriceLevel.eraseTypes, retype_remainingQty, retype_retype]

/-- Resting a retyped order produces the same bid side up to the stored
order types. -/
lemma insertBid_retype_erase (o : Order) (ls : List PriceLevel) :
    (insertBid (o.retype OrderType.LIMIT) ls).map PriceLevel.eraseTypes =
      (insertBid o ls).map PriceLevel.eraseTypes := by
  induction ls with
  | nil => rfl
  | cons l rest ih =>
      unfold insertBid
      simp only [retype_price]
      by_cases h1 : o.price > l.price
      · rw [if_pos h1, if_pos h1]; rfl
      · rw [if_neg h1, if_neg h1]
        by_cases h2 : o.price = l.price
        · rw [if_pos h2, if_pos h2]
          simp only [List.map_cons, eraseTypes_addOrder_retype]
        · rw [if_neg h2, if_neg h2]
          simp only [List.map_cons, ih]

/-- Resting a retyped order produces the same ask side up to the stored
order types. -/
lemma insertAsk_retype_erase (o : Order) (ls : List PriceLevel) :
    (insertAsk (o.retype OrderType.LIMIT) ls).map PriceLevel.eraseTypes =
      (insertAsk o ls).map PriceLevel.eraseTypes := by
  induction ls with
  | nil => rfl
  | cons l rest ih =>
      unfold insertAsk
      simp only [retype_price]
      by_cases h1 : o.price < l.price
      · rw [if_pos h1, if_pos h1]; rfl
      · rw [if_neg h1, if_neg h1]
        by_cases h2 : o.price = l.price
        · rw [if_pos h2, if_pos h2]
          simp only [List.map_cons, eraseTypes_addOrder_retype]
        · rw [if_neg h2, if_neg h2]
          simp only [List.map_cons, ih]

/-- add_to_book with a retyped order gives the same book up to the stored
order types. -/
lemma addToBook_retype_erase (b : BookState) (o : Order) :
    (b.addToBook (o.retype OrderType.LIMIT)).eraseTypes = (b.addToBook o).eraseTypes := by
  unfold BookState.addToBook
  cases ho : o.side
  all_goals simp only [retype_side, ho, BookState.eraseTypes,
    insertBid_retype_erase, insertAsk_retype_erase]

lemma retype_type (o : Order) (t : OrderType) : (o.retype t).type = t := rfl

lemma retype_isActive (o : Order) (t : OrderType) :
    (o.retype t).isActive = o.isActive := rfl

lemma makeNew_retype (o : Order) (t : OrderType) :
    ExecutionReport.makeNew (o.retype t) = ExecutionReport.makeNew o := rfl

/-- C2, amended.  The source gives MARKET orders no special handling: on
every book, a MARKET submission is accepted exactly when the same
submission retyped LIMIT is, emits exactly the same reports, and produces
the same book up to the stored order-type field of the resting aggressor
— the crossing loop applies the same price comparison and the same fills
as for a LIMIT order; any remainder left after matching that is positive
and active rests in the book via add_to_book rather than being cancelled;
and matching consults only the opposite side, so no aggressor — BUY or
SELL — ever crosses into its own side of the book. -/
theorem C2_market_treated_as_limit (b : BookState) (o : Order)
    (htype : o.type = OrderType.MARKET) :
    ((b.addOrder o).ok = (b.addOrder (o.retype OrderType.LIMIT)).ok ∧
     (b.addOrder o).reports = (b.addOrder (o.retype OrderType.LIMIT)).reports ∧
     (b.addOrder o).book.eraseTypes =
       (b.addOrder (o.retype OrderType.LIMIT)).book.eraseTypes) ∧
    (∀ (b2 : BookState) (o2 : Order), o2.type = OrderType.MARKET →
       b2.poolFree ≠ 0 →
       0 < (({ b2 with poolFree := b2.poolFree - 1 } : BookState).afterMatch o2).1.remainingQty →
       (({ b2 with poolFree := b2.poolFree - 1 } : BookState).afterMatch o2).1.isActive →
       (b2.addOrder o2).book =
         ((({ b2 with poolFree := b2.poolFree - 1 } : BookState).afterMatch o2).2.1).addToBook
           (({ b2 with poolFree := b2.poolFree - 1 } : BookState).afterMatch o2).1) ∧
    (∀ (b2 : BookState) (o2 : Order),
       (o2.side = Side.BUY → ((b2.afterMatch o2).2.1).bids = b2.bids) ∧
       (o2.side = Side.SELL → ((b2.afterMatch o2).2.1).asks = b2.asks)) := by
  have hPO : ¬ (o.type = OrderType.POST_ONLY) := by rw [htype]; decide
  have hPOL : ¬ ((o.retype OrderType.LIMIT).type = OrderType.POST_ONLY) := by
    rw [retype_type]; decide
  refine ⟨?_, ?_, ?_⟩
  · simp only [BookState.addOrder]
    by_cases hp : b.poolFree = 0
    · rw [if_pos hp, if_pos hp]
      exact ⟨rfl, rfl, rfl⟩
    · rw [if_neg hp, if_neg hp, if_neg hPO, if_neg hPOL, afterMatch_retype]
      dsimp only
      simp only [retype_remainingQty, retype_isActive, makeNew_retype]
      by_cases hr :
          0 < ((({ b with poolFree := b.poolFree - 1 } : BookState).afterMatch o).1).remainingQty ∧
          ((({ b with poolFree := b.poolFree - 1 } : BookState).afterMatch o).1).isActive
      · rw [if_pos hr, if_pos hr]
        exact ⟨rfl, rfl, (addToBook_retype_erase _ _).symm⟩
      · rw [if_neg hr, if_neg hr]
        by_cases hz :
            ((({ b with poolFree := b.poolFree - 1 } : BookState).afterMatch o).1).remainingQty = 0
        · rw [if_pos hz]
          exact ⟨rfl, rfl, rfl⟩
        · rw [if_neg hz]
          exact ⟨rfl, rfl, rfl⟩
  · intro b2 o2 ht2 hp2 hrem2 hact2
    have hPO2 : ¬ (o2.type = OrderType.POST_ONLY) := by rw [ht2]; decide
    simp only [BookState.addOrder]
    rw [if_neg hp2, if_neg hPO2, if_pos (And.intro hrem2 hact2)]
  · intro b2 o2
    constructor
    · intro h2; simp [BookState.afterMatch, h2]
    · intro h2; simp [BookState.afterMatch, h2]

/-- C2, witness: the amended theorem applied to a marketable MARKET BUY
100 x 15 against the book with one ask LIMIT 100 x 10: it trades and
reports exactly as the LIMIT retype does, and its remainder of 5 rests on
the bid side via add_to_book. -/
theorem C2_witness :
    (exOrder 2 Side.BUY OrderType.MARKET 100 15).type = OrderType.MARKET ∧
    exBookAsk100.poolFree ≠ 0 ∧
    (exBookAsk100.addOrder (exOrder 2 Side.BUY OrderType.MARKET 100 15)).reports =
      (exBookAsk100.addOrder
        ((exOrder 2 Side.BUY OrderType.MARKET 100 15).retype OrderType.LIMIT)).reports ∧
    (exBookAsk100.addOrder (exOrder 2 Side.BUY OrderType.MARKET 100 15)).book.eraseTypes =
      (exBookAsk100.addOrder
        ((exOrder 2 Side.BUY OrderType.MARKET 100 15).retype OrderType.LIMIT)).book.eraseTypes ∧
    (exBookAsk100.addOrder (exOrder 2 Side.BUY OrderType.MARKET 100 15)).book =
      ((({ exBookAsk100 with poolFree := exBookAsk100.poolFree - 1 } : BookState).afterMatch
          (exOrder 2 Side.BUY OrderType.MARKET 100 15)).2.1).addToBook
        (({ exBookAsk100 with poolFree := exBookAsk100.poolFree - 1 } : BookState).afterMatch
          (exOrder 2 Side.BUY OrderType.MARKET 100 15)).1 := by
  have h := C2_market_treated_as_limit exBookAsk100
    (exOrder 2 Side.BUY OrderType.MARKET 100 15) (by decide)
  exact ⟨by decide, by decide, h.1.2.1, h.1.2.2,
    h.2.1 exBookAsk100 (exOrder 2 Side.BUY OrderType.MARKET 100 15)
      (by decide) (by decide) (by decide) (by decide)⟩

/-- make_symbol copies exactly the first min(length, 15) bytes into the
zero-initialised 16-byte array, i.e. it depends only on the first 15
bytes of its input. -/
lemma makeSymbol_eq_take (s : List Nat) :
    makeSymbol s = s.take 15 ++ List.replicate (16 - (s.take 15).length) 0 := by
  unfold makeSymbol
  rcases le_total s.length 15 with h | h
  · rw [min_eq_left h, List.take_of_length_le h, List.take_length]
  · rw [min_eq_right h, List.length_take, min_eq_left h]

/-- C10.  make_symbol copies at most 15 bytes, so the 16th byte of the
Symbol is always NUL; two inputs agreeing on their first 15 bytes produce
the same Symbol, and since the engine keys its books by
symbol_view(symbol), get_book/add_instrument/submit_order/cancel_order
resolve them identically. -/
theorem C10_symbol_prefix_routing (s1 s2 : List Nat)
    (h : s1.take 15 = s2.take 15) :
    makeSymbol s1 = makeSymbol s2 ∧
    (makeSymbol s1).length = 16 ∧
    (∀ d : Nat, (makeSymbol s1).getD 15 d = 0) ∧
    (∀ e : Engine, e.getBook (makeSymbol s1) = e.getBook (makeSymbol s2)) ∧
    (∀ e : Engine, e.addInstrument (makeSymbol s1) = e.addInstrument (makeSymbol s2)) ∧
    (∀ (e : Engine) (side : Side) (type : OrderType) (price qty : Int) (client : Nat),
      e.submitOrder (makeSymbol s1) side type price qty client =
        e.submitOrder (makeSymbol s2) side type price qty client) ∧
    (∀ (e : Engine) (oid : Nat),
      e.cancelOrder (makeSymbol s1) oid = e.cancelOrder (makeSymbol s2) oid) := by
  have htl : (s1.take 15).length ≤ 15 := by
    rw [List.length_take]; exact min_le_left _ _
  have hsym : makeSymbol s1 = makeSymbol s2 := by
    rw [makeSymbol_eq_take, makeSymbol_eq_take, h]
  refine ⟨hsym, ?_, ?_, fun e => by rw [hsym], fun e => by rw [hsym],
    fun e side type price qty client => by rw [hsym], fun e oid => by rw [hsym]⟩
  · rw [makeSymbol_eq_take, List.length_append, List.length_replicate]
    omega
  · intro d
    rw [makeSymbol_eq_take, List.getD_eq_getElem?_getD,
      List.getElem?_append_right (by omega : (s1.take 15).length ≤ 15),
      List.getElem?_replicate_of_lt (by omega)]
    rfl

/-- C10, witness: two byte strings that agree on their first 15 bytes but
differ from the 16th byte on resolve to the same Symbol and book. -/
theorem C10_witness :
    (List.replicate 15 65 ++ [66]).take 15 = (List.replicate 15 65 ++ [67]).take 15 ∧
    makeSymbol (List.replicate 15 65 ++ [66]) = makeSymbol (List.replicate 15 65 ++ [67]) := by
  have h : (List.replicate 15 (65:Nat) ++ [66]).take 15 =
      (List.replicate 15 (65:Nat) ++ [67]).take 15 := by decide
  exact ⟨h, (C10_symbol_prefix_routing _ _ h).1⟩

/-- One submit_order call: the id counter either stays (unknown symbol) or
advances by one; a non-INVALID return is the counter value mod 2^64, and
then the counter advanced. -/
lemma submitOrder_id_cases (e : Engine) (r : Engine.SubmitReq) :
    ((e.submitOrder r.sym r.side r.type r.price r.qty r.client).2.1.nextId = e.nextId ∨
     (e.submitOrder r.sym r.side r.type r.price r.qty r.client).2.1.nextId = e.nextId + 1) ∧
    ((e.submitOrder r.sym r.side r.type r.price r.qty r.client).1 = INVALID_ORDER_ID ∨
     ((e.submitOrder r.sym r.side r.type r.price r.qty r.client).1 = e.nextId % 2 ^ 64 ∧
      (e.submitOrder r.sym r.side r.type r.price r.qty r.client).2.1.nextId = e.nextId + 1)) := by
  cases hb : Engine.lookupBook (symbolView r.sym) e.books with
  | none =>
      rw [submitOrder_unknown e r.sym r.side r.type r.price r.qty r.client hb]
      exact ⟨Or.inl rfl, Or.inl rfl⟩
  | some b0 =>
      rw [submitOrder_found e r.sym r.side r.type r.price r.qty r.client b0 hb]
      by_cases hok : (b0.addOrder (e.mkOrder r.side r.type r.price r.qty r.client)).ok = true
      · rw [if_pos hok]
        exact ⟨Or.inr rfl, Or.inr ⟨rfl, rfl⟩⟩
      · rw [if_neg hok]
        exact ⟨Or.inr rfl, Or.inl rfl⟩

/-- Ids returned by a run of submissions: every non-INVALID id lies in
[e.nextId, e.nextId + number of requests) and the non-INVALID ids are
strictly increasing in submission order (no wrap before 2^64). -/
lemma runSubmits_ids (reqs : List Engine.SubmitReq) : ∀ (e : Engine),
    e.nextId + reqs.length ≤ 2 ^ 64 →
    (∀ oid ∈ (Engine.runSubmits e reqs).2, oid = INVALID_ORDER_ID ∨
        (e.nextId ≤ oid ∧ oid < e.nextId + reqs.length)) ∧
    ((Engine.runSubmits e reqs).2.filter
        (fun oid => decide (oid ≠ INVALID_ORDER_ID))).Pairwise (· < ·) := by
  induction reqs with
  | nil =>
      intro e _
      exact ⟨fun oid h => absurd h (List.not_mem_nil _), List.Pairwise.nil⟩
  | cons r rest ih =>
      intro e h2
      have hlt : e.nextId < 2 ^ 64 := by
        have hlen : (r :: rest).length = rest.length + 1 := by simp
        omega
      obtain ⟨hnext, hid⟩ := submitOrder_id_cases e r
      have hmono : e.nextId ≤ (e.submitOrder r.sym r.side r.type r.price r.qty r.client).2.1.nextId := by
        rcases hnext with h | h <;> omega
      have hstep : (e.submitOrder r.sym r.side r.type r.price r.qty r.client).2.1.nextId ≤ e.nextId + 1 := by
        rcases hnext with h | h <;> omega
      have h2' : (e.submitOrder r.sym r.side r.type r.price r.qty r.client).2.1.nextId + rest.length ≤ 2 ^ 64 := by
        have hlen : (r :: rest).length = rest.length + 1 := by simp
        omega
      obtain ⟨ihb, ihp⟩ := ih (e.submitOrder r.sym r.side r.type r.price r.qty r.client).2.1 h2'
      have hmod : e.nextId % 2 ^ 64 = e.nextId := Nat.mod_eq_of_lt hlt
      constructor
      · intro oid hmem
        rcases List.mem_cons.mp hmem with hh | ht
        · subst hh
          rcases hid with h0 | ⟨hv, _⟩
          · exact Or.inl h0
          · refine Or.inr ?_
            rw [hv, hmod]
            simp
        · rcases ihb oid ht with h0 | ⟨hlo, hhi⟩
          · exact Or.inl h0
          · refine Or.inr ⟨le_trans hmono hlo, ?_⟩
            have hlen : (r :: rest).length = rest.length + 1 := by simp
            omega
      · show (List.filter _ (_ :: _)).Pairwise (· < ·)
        by_cases hz : (e.submitOrder r.sym r.side r.type r.price r.qty r.client).1 = INVALID_ORDER_ID
        · rw [List.filter_cons_of_neg (by simp [hz])]
          exact ihp
        · rw [List.filter_cons_of_pos (by simp [hz])]
          refine List.Pairwise.cons ?_ ihp
          intro x hx
          rcases List.mem_filter.mp hx with ⟨hxm, hxz⟩
          rcases hid with h0 | ⟨hv, hn1⟩
          · exact absurd h0 hz
          · rcases ihb x hxm with h0 | ⟨hlo, _⟩
            · simp at hxz
              exact absurd h0 hxz
            · rw [hv, hmod]
              rw [hn1] at hlo
              omega

/-- C9.  From a fresh engine the generator hands out 1, 2, 3, ...: every id
returned by a successful submit_order is nonzero (distinguishable from
INVALID_ORDER_ID = 0) and the successful ids are strictly increasing in
submission order; stated for any engine whose counter is at least the
starting value 1 and for runs short enough that the uint64 counter cannot
wrap. -/
theorem C9_ids_strictly_increasing (e : Engine) (reqs : List Engine.SubmitReq)
    (h1 : 1 ≤ e.nextId) (h2 : e.nextId + reqs.length ≤ 2 ^ 64) :
    Engine.init.nextId = 1 ∧
    (∀ oid ∈ (Engine.runSubmits e reqs).2, oid ≠ INVALID_ORDER_ID → 1 ≤ oid) ∧
    ((Engine.runSubmits e reqs).2.filter
        (fun oid => decide (oid ≠ INVALID_ORDER_ID))).Pairwise (· < ·) := by
  obtain ⟨hb, hp⟩ := runSubmits_ids reqs e h2
  refine ⟨rfl, ?_, hp⟩
  intro oid hm hz
  rcases hb oid hm with h0 | ⟨hlo, _⟩
  · exact absurd h0 hz
  · omega

/-- C9, witness: two submissions on the fresh engine yield the ids 1 then
2: nonzero and strictly increasing. -/
theorem C9_witness :
    1 ≤ exEngine.nextId ∧ exEngine.nextId + exReqs.length ≤ 2 ^ 64 ∧
    ((Engine.runSubmits exEngine exReqs).2.filter
        (fun oid => decide (oid ≠ INVALID_ORDER_ID))).Pairwise (· < ·) ∧
    (Engine.runSubmits exEngine exReqs).2 = [1, 2] :=
  ⟨by decide, by decide,
   (C9_ids_strictly_increasing exEngine exReqs (by decide) (by decide)).2.2,
   by decide⟩

/-- The modular distance (tail + Cap - head) % Cap written without the
mod, by cases on head ≤ tail. -/
lemma spsc_dist_eq (Cap h t : Nat) (hh : h < Cap) (ht : t < Cap) :
    (t + Cap - h) % Cap = if h ≤ t then t - h else t + Cap - h := by
  rcases le_or_lt h t with hle | hlt
  · rw [if_pos hle]
    have h1 : t + Cap - h = Cap + (t - h) := by omega
    rw [h1, Nat.add_mod_left]
    exact Nat.mod_eq_of_lt (by omega)
  · rw [if_neg (by omega)]
    exact Nat.mod_eq_of_lt (by omega)

/-- The masked increment written without the mod. -/
lemma spsc_inc_eq (Cap i : Nat) (hi : i < Cap) :
    SPSC.inc Cap i = if i + 1 = Cap then 0 else i + 1 := by
  unfold SPSC.inc
  by_cases hc : i + 1 = Cap
  · rw [if_pos hc, hc, Nat.mod_self]
  · rw [if_neg hc]
    exact Nat.mod_eq_of_lt (by omega)

/-- try_push reports failure exactly when the incremented tail hits the
head. -/
lemma spsc_push_false_iff_inc {α : Type} (Cap : Nat) (q : SPSC α) (v : α) :
    (SPSC.tryPush Cap q v).1 = false ↔ SPSC.inc Cap q.tail = q.head := by
  unfold SPSC.tryPush
  by_cases h : SPSC.inc Cap q.tail = q.head
  · rw [if_pos h]; simp [h]
  · rw [if_neg h]; simp [h]

/-- The incremented tail hits the head exactly when the queue holds
Cap - 1 elements. -/
lemma spsc_full_iff (Cap h t : Nat) (hCap : 2 ≤ Cap) (hh : h < Cap) (ht : t < Cap) :
    (t + 1) % Cap = h ↔ (t + Cap - h) % Cap = Cap - 1 := by
  have h1 : (t + 1) % Cap = if t + 1 = Cap then 0 else t + 1 := by
    by_cases hc : t + 1 = Cap
    · rw [if_pos hc, hc, Nat.mod_self]
    · rw [if_neg hc]; exact Nat.mod_eq_of_lt (by omega)
  rw [h1, spsc_dist_eq Cap h t hh ht]
  split_ifs <;> omega

/-- head = tail exactly when the queue is empty (size 0). -/
lemma spsc_empty_iff (Cap h t : Nat) (hCap : 2 ≤ Cap) (hh : h < Cap) (ht : t < Cap) :
    h = t ↔ (t + Cap - h) % Cap = 0 := by
  rw [spsc_dist_eq Cap h t hh ht]
  split_ifs <;> omega

/-- A successful push increases the modular distance by one. -/
lemma spsc_size_after_push (Cap h t : Nat) (hCap : 2 ≤ Cap) (hh : h < Cap)
    (ht : t < Cap) (hne : (t + 1) % Cap ≠ h) :
    ((t + 1) % Cap + Cap - h) % Cap = (t + Cap - h) % Cap + 1 := by
  by_cases hc : t + 1 = Cap
  · rw [show (t + 1) % Cap = 0 from by rw [hc, Nat.mod_self]] at hne ⊢
    rw [spsc_dist_eq Cap h 0 hh (by omega), spsc_dist_eq Cap h t hh ht]
    split_ifs <;> omega
  · rw [show (t + 1) % Cap = t + 1 from Nat.mod_eq_of_lt (by omega)] at hne ⊢
    rw [spsc_dist_eq Cap h (t + 1) hh (by omega), spsc_dist_eq Cap h t hh ht]
    split_ifs <;> omega

/-- A pop decreases the modular distance by one. -/
lemma spsc_size_after_pop (Cap h t : Nat) (hCap : 2 ≤ Cap) (hh : h < Cap)
    (ht : t < Cap) (hne : h ≠ t) :
    (t + Cap - (h + 1) % Cap) % Cap = (t + Cap - h) % Cap - 1 := by
  by_cases hc : h + 1 = Cap
  · rw [show (h + 1) % Cap = 0 from by rw [hc, Nat.mod_self]]
    rw [spsc_dist_eq Cap 0 t (by omega) ht, spsc_dist_eq Cap h t hh ht]
    split_ifs <;> omega
  · rw [show (h + 1) % Cap = h + 1 from Nat.mod_eq_of_lt (by omega)]
    rw [spsc_dist_eq Cap (h + 1) t (by omega) ht, spsc_dist_eq Cap h t hh ht]
    split_ifs <;> omega

/-- Buffer positions strictly inside the occupied span differ from the
tail slot. -/
lemma spsc_idx_ne_tail (Cap h t i : Nat) (hh : h < Cap) (ht : t < Cap)
    (hi : i < (t + Cap - h) % Cap) : (h + i) % Cap ≠ t := by
  rw [spsc_dist_eq Cap h t hh ht] at hi
  by_cases hc : h + i < Cap
  · rw [Nat.mod_eq_of_lt hc]
    split_ifs at hi <;> omega
  · have hlt2 : h + i - Cap < Cap := by split_ifs at hi <;> omega
    rw [Nat.mod_eq_sub_mod (by omega), Nat.mod_eq_of_lt hlt2]
    split_ifs at hi <;> omega

/-- The position one past the occupied span is the tail slot. -/
lemma spsc_idx_dist_eq_tail (Cap h t : Nat) (hh : h < Cap) (ht : t < Cap) :
    (h + (t + Cap - h) % Cap) % Cap = t := by
  rw [spsc_dist_eq Cap h t hh ht]
  split_ifs with hle
  · rw [show h + (t - h) = t from by omega]
    exact Nat.mod_eq_of_lt ht
  · rw [show h + (t + Cap - h) = t + Cap from by omega, Nat.add_mod_right]
    exact Nat.mod_eq_of_lt ht

/-- A push on a non-full well-formed queue succeeds, stays well formed,
grows the size by one and appends the value to the contents. -/
lemma spsc_push_spec {α : Type} [Inhabited α] (Cap : Nat) (q : SPSC α) (v : α)
    (hCap : 2 ≤ Cap) (hwf : SPSC.WF Cap q)
    (hroom : SPSC.size Cap q < Cap - 1) :
    (SPSC.tryPush Cap q v).1 = true ∧
    SPSC.WF Cap (SPSC.tryPush Cap q v).2 ∧
    SPSC.size Cap (SPSC.tryPush Cap q v).2 = SPSC.size Cap q + 1 ∧
    SPSC.contents Cap (SPSC.tryPush Cap q v).2 = SPSC.contents Cap q ++ [v] := by
  obtain ⟨hb, hh, ht⟩ := hwf
  have hne : SPSC.inc Cap q.tail ≠ q.head := by
    intro hc
    have : SPSC.size Cap q = Cap - 1 :=
      (spsc_full_iff Cap q.head q.tail hCap hh ht).mp hc
    omega
  have hq2 : (SPSC.tryPush Cap q v).2 =
      { buffer := q.buffer.set q.tail v, head := q.head,
        tail := SPSC.inc Cap q.tail } := by
    unfold SPSC.tryPush
    rw [if_neg hne]
  have hok : (SPSC.tryPush Cap q v).1 = true := by
    unfold SPSC.tryPush
    rw [if_neg hne]
  have hsz : SPSC.size Cap (SPSC.tryPush Cap q v).2 = SPSC.size Cap q + 1 := by
    rw [hq2]
    show (SPSC.inc Cap q.tail + Cap - q.head) % Cap = _
    exact spsc_size_after_push Cap q.head q.tail hCap hh ht hne
  refine ⟨hok, ?_, hsz, ?_⟩
  · rw [hq2]
    refine ⟨by simpa using hb, hh, ?_⟩
    exact Nat.mod_lt _ (by omega)
  · unfold SPSC.contents
    rw [hsz, hq2, List.range_succ, List.map_append]
    show _ ++ [(q.buffer.set q.tail v).getD ((q.head + SPSC.size Cap q) % Cap) default] =
      _ ++ [v]
    have htail : (q.head + SPSC.size Cap q) % Cap = q.tail :=
      spsc_idx_dist_eq_tail Cap q.head q.tail hh ht
    congr 1
    · apply List.map_congr_left
      intro i hi
      have hilt : i < SPSC.size Cap q := List.mem_range.mp hi
      have hne2 : (q.head + i) % Cap ≠ q.tail :=
        spsc_idx_ne_tail Cap q.head q.tail i hh ht hilt
      show (q.buffer.set q.tail v).getD ((q.head + i) % Cap) default =
        q.buffer.getD ((q.head + i) % Cap) default
      rw [List.getD_eq_getElem?_getD, List.getD_eq_getElem?_getD,
        List.getElem?_set_ne (fun hc => hne2 hc.symm)]
    · rw [htail, List.getD_eq_getElem?_getD,
        List.getElem?_set_self (by rw [hb]; exact ht)]
      rfl

/-- A pop on a well-formed queue returns the head of the contents, stays
well formed, and drops the first element (size falls by one when
non-empty). -/
lemma spsc_pop_spec {α : Type} [Inhabited α] (Cap : Nat) (q : SPSC α)
    (hCap : 2 ≤ Cap) (hwf : SPSC.WF Cap q) :
    (SPSC.tryPop Cap q).1 = (SPSC.contents Cap q).head? ∧
    SPSC.WF Cap (SPSC.tryPop Cap q).2 ∧
    SPSC.size Cap (SPSC.tryPop Cap q).2 = SPSC.size Cap q - 1 ∧
    SPSC.contents Cap (SPSC.tryPop Cap q).2 = (SPSC.contents Cap q).tail := by
  obtain ⟨hb, hh, ht⟩ := hwf
  by_cases he : q.head = q.tail
  · have hs : SPSC.size Cap q = 0 := by
      unfold SPSC.size
      exact (spsc_empty_iff Cap q.head q.tail hCap hh ht).mp he
    have hq2 : (SPSC.tryPop Cap q).2 = q := by
      unfold SPSC.tryPop
      rw [if_pos he]
    have hc0 : SPSC.contents Cap q = [] := by
      unfold SPSC.contents
      rw [hs]
      rfl
    have hp1 : (SPSC.tryPop Cap q).1 = none := by
      unfold SPSC.tryPop
      rw [if_pos he]
    rw [hq2, hp1, hc0, hs]
    exact ⟨rfl, ⟨hb, hh, ht⟩, rfl, rfl⟩
  · have hs0 : SPSC.size Cap q ≠ 0 := by
      intro hc
      exact he ((spsc_empty_iff Cap q.head q.tail hCap hh ht).mpr hc)
    have hq2 : (SPSC.tryPop Cap q).2 = { q with head := SPSC.inc Cap q.head } := by
      unfold SPSC.tryPop
      rw [if_neg he]
    have hp1 : (SPSC.tryPop Cap q).1 = some (q.buffer.getD q.head default) := by
      unfold SPSC.tryPop
      rw [if_neg he]
    have hsz : SPSC.size Cap (SPSC.tryPop Cap q).2 = SPSC.size Cap q - 1 := by
      rw [hq2]
      show (q.tail + Cap - SPSC.inc Cap q.head) % Cap = _
      exact spsc_size_after_pop Cap q.head q.tail hCap hh ht he
    obtain ⟨s, hs'⟩ : ∃ s, SPSC.size Cap q = s + 1 :=
      ⟨SPSC.size Cap q - 1, by omega⟩
    have hcont : SPSC.contents Cap q =
        q.buffer.getD q.head default ::
          (List.range s).map
            (fun i => q.buffer.getD ((q.head + (i + 1)) % Cap) default) := by
      unfold SPSC.contents
      rw [hs', List.range_succ_eq_map, List.map_cons, List.map_map]
      congr 1
      · rw [Nat.add_zero, Nat.mod_eq_of_lt hh]
    refine ⟨?_, ?_, hsz, ?_⟩
    · rw [hp1, hcont]
      rfl
    · rw [hq2]
      exact ⟨hb, Nat.mod_lt _ (by omega), ht⟩
    · unfold SPSC.contents
      rw [hsz, hs', Nat.add_sub_cancel, List.range_succ_eq_map, List.map_cons,
        List.map_map, List.tail_cons]
      apply List.map_congr_left
      intro i _
      show ((SPSC.tryPop Cap q).2.buffer).getD
          (((SPSC.tryPop Cap q).2.head + i) % Cap) default =
        q.buffer.getD ((q.head + (i + 1)) % Cap) default
      rw [hq2]
      show q.buffer.getD ((SPSC.inc Cap q.head + i) % Cap) default = _
      have hidx : (SPSC.inc Cap q.head + i) % Cap = (q.head + (i + 1)) % Cap := by
        unfold SPSC.inc
        rw [Nat.mod_add_mod]
        congr 1
        omega
      rw [hidx]

/-- Pushing a list whose length fits in the remaining room: every push
succeeds, well-formedness is preserved, the size grows by the list length
and the contents gain the list at the back. -/
lemma spsc_pushList_spec {α : Type} [Inhabited α] (Cap : Nat) (hCap : 2 ≤ Cap) :
    ∀ (xs : List α) (q : SPSC α), SPSC.WF Cap q →
      SPSC.size Cap q + xs.length ≤ Cap - 1 →
      (SPSC.pushList Cap q xs).2.all (fun b => b) = true ∧
      SPSC.WF Cap (SPSC.pushList Cap q xs).1 ∧
      SPSC.size Cap (SPSC.pushList Cap q xs).1 = SPSC.size Cap q + xs.length ∧
      SPSC.contents Cap (SPSC.pushList Cap q xs).1 = SPSC.contents Cap q ++ xs := by
  intro xs
  induction xs with
  | nil =>
      intro q hwf _
      exact ⟨rfl, hwf, by simp [SPSC.pushList], by simp [SPSC.pushList]⟩
  | cons v rest ih =>
      intro q hwf hroom
      have hlen : (v :: rest).length = rest.length + 1 := by simp
      have hr1 : SPSC.size Cap q < Cap - 1 := by omega
      obtain ⟨hok, hwf1, hsz1, hct1⟩ := spsc_push_spec Cap q v hCap hwf hr1
      have hroom1 : SPSC.size Cap (SPSC.tryPush Cap q v).2 + rest.length ≤ Cap - 1 := by
        omega
      obtain ⟨ihall, ihwf, ihsz, ihct⟩ := ih (SPSC.tryPush Cap q v).2 hwf1 hroom1
      refine ⟨?_, ihwf, ?_, ?_⟩
      case refine_2 =>
        show SPSC.size Cap (SPSC.pushList Cap (SPSC.tryPush Cap q v).2 rest).1 = _
        rw [ihsz, hsz1]
        omega
      · show ((SPSC.tryPush Cap q v).1 :: (SPSC.pushList Cap (SPSC.tryPush Cap q v).2 rest).2).all _ = true
        rw [List.all_cons, hok, ihall]
        rfl
      · show SPSC.contents Cap (SPSC.pushList Cap (SPSC.tryPush Cap q v).2 rest).1 = _
        rw [ihct, hct1, List.append_assoc]
        rfl

/-- The empty queue over a Cap-length backing store is well formed, has
size 0 and empty contents. -/
lemma spsc_start_spec {α : Type} [Inhabited α] (Cap : Nat) (hCap : 2 ≤ Cap)
    (buf : List α) (hb : buf.length = Cap) :
    SPSC.WF Cap (SPSC.start buf) ∧ SPSC.size Cap (SPSC.start buf) = 0 ∧
    SPSC.contents Cap (SPSC.start buf) = [] := by
  refine ⟨⟨hb, by show (0:Nat) < Cap; omega, by show (0:Nat) < Cap; omega⟩, ?_, ?_⟩
  · show (0 + Cap - 0) % Cap = 0
    rw [show 0 + Cap - 0 = Cap from by omega, Nat.mod_self]
  · unfold SPSC.contents
    rw [show SPSC.size Cap (SPSC.start buf) = 0 from by
      show (0 + Cap - 0) % Cap = 0
      rw [show 0 + Cap - 0 = Cap from by omega, Nat.mod_self]]
    rfl

/-- C6.  The SPSC queue with power-of-two capacity N, run sequentially from
empty: N-1 consecutive try_push calls all succeed and the N-th returns
false (one slot stays empty); after one try_pop — which returns the first
pushed element — the next try_push succeeds; try_push returns false iff the
queue holds its effective capacity N-1 and try_pop returns empty iff the
queue is empty; and the queue is FIFO: a successful push appends its value
to the contents and a pop removes exactly the front of the contents, so
elements are popped in push order. -/
theorem C6_spsc_queue (α : Type) [Inhabited α] (Cap : Nat)
    (hpow : ∃ k, Cap = 2 ^ k) (hCap : 2 ≤ Cap) :
    (∀ (buf xs : List α), buf.length = Cap → xs.length = Cap - 1 →
      (SPSC.pushList Cap (SPSC.start buf) xs).2.all (fun b => b) = true) ∧
    (∀ (buf xs : List α) (v : α), buf.length = Cap → xs.length = Cap - 1 →
      (SPSC.tryPush Cap (SPSC.pushList Cap (SPSC.start buf) xs).1 v).1 = false) ∧
    (∀ (buf : List α) (x0 : α) (rest : List α) (v : α), buf.length = Cap →
      (x0 :: rest).length = Cap - 1 →
      (SPSC.tryPop Cap (SPSC.pushList Cap (SPSC.start buf) (x0 :: rest)).1).1 = some x0 ∧
      (SPSC.tryPush Cap
        (SPSC.tryPop Cap (SPSC.pushList Cap (SPSC.start buf) (x0 :: rest)).1).2 v).1 = true) ∧
    (∀ (q : SPSC α) (v : α), SPSC.WF Cap q →
      ((SPSC.tryPush Cap q v).1 = false ↔ SPSC.size Cap q = Cap - 1)) ∧
    (∀ q : SPSC α, SPSC.WF Cap q →
      ((SPSC.tryPop Cap q).1 = none ↔ SPSC.size Cap q = 0)) ∧
    (∀ (q : SPSC α) (v : α), SPSC.WF Cap q → (SPSC.tryPush Cap q v).1 = true →
      SPSC.contents Cap (SPSC.tryPush Cap q v).2 = SPSC.contents Cap q ++ [v]) ∧
    (∀ q : SPSC α, SPSC.WF Cap q →
      (SPSC.tryPop Cap q).1 = (SPSC.contents Cap q).head? ∧
      SPSC.contents Cap (SPSC.tryPop Cap q).2 = (SPSC.contents Cap q).tail) := by
  have hfull : ∀ (q : SPSC α) (v : α), SPSC.WF Cap q →
      ((SPSC.tryPush Cap q v).1 = false ↔ SPSC.size Cap q = Cap - 1) := by
    intro q v hwf
    obtain ⟨hb, hh, ht⟩ := hwf
    rw [spsc_push_false_iff_inc]
    exact spsc_full_iff Cap q.head q.tail hCap hh ht
  have hempty : ∀ q : SPSC α, SPSC.WF Cap q →
      ((SPSC.tryPop Cap q).1 = none ↔ SPSC.size Cap q = 0) := by
    intro q hwf
    obtain ⟨hb, hh, ht⟩ := hwf
    constructor
    · intro hn
      by_contra hs
      have hne : ¬ q.head = q.tail := fun hc =>
        hs ((spsc_empty_iff Cap q.head q.tail hCap hh ht).mp hc)
      unfold SPSC.tryPop at hn
      rw [if_neg hne] at hn
      exact Option.some_ne_none _ hn
    · intro hs
      have he : q.head = q.tail :=
        (spsc_empty_iff Cap q.head q.tail hCap hh ht).mpr hs
      unfold SPSC.tryPop
      rw [if_pos he]
  have hfill : ∀ (buf xs : List α), buf.length = Cap → xs.length = Cap - 1 →
      (SPSC.pushList Cap (SPSC.start buf) xs).2.all (fun b => b) = true ∧
      SPSC.WF Cap (SPSC.pushList Cap (SPSC.start buf) xs).1 ∧
      SPSC.size Cap (SPSC.pushList Cap (SPSC.start buf) xs).1 = Cap - 1 ∧
      SPSC.contents Cap (SPSC.pushList Cap (SPSC.start buf) xs).1 = xs := by
    intro buf xs hb hx
    obtain ⟨hwf0, hsz0, hct0⟩ := spsc_start_spec Cap hCap buf hb
    obtain ⟨hall, hwf, hsz, hct⟩ :=
      spsc_pushList_spec Cap hCap xs (SPSC.start buf) hwf0 (by omega)
    exact ⟨hall, hwf, by omega, by rw [hct, hct0]; rfl⟩
  have happend : ∀ (q : SPSC α) (v : α), SPSC.WF Cap q →
      (SPSC.tryPush Cap q v).1 = true →
      SPSC.contents Cap (SPSC.tryPush Cap q v).2 = SPSC.contents Cap q ++ [v] := by
    intro q v hwf hok
    have hroom : SPSC.size Cap q < Cap - 1 := by
      by_contra hc
      have hlt : SPSC.size Cap q < Cap := by
        show (q.tail + Cap - q.head) % Cap < Cap
        exact Nat.mod_lt _ (by omega)
      have hfull2 : SPSC.size Cap q = Cap - 1 := by omega
      have hf := (hfull q v hwf).mpr hfull2
      rw [hok] at hf
      exact Bool.true_eq_false.mp hf
    exact (spsc_push_spec Cap q v hCap hwf hroom).2.2.2
  refine ⟨fun buf xs hb hx => (hfill buf xs hb hx).1, ?_, ?_, hfull, hempty, happend,
    fun q hwf => ⟨(spsc_pop_spec Cap q hCap hwf).1, (spsc_pop_spec Cap q hCap hwf).2.2.2⟩⟩
  · intro buf xs v hb hx
    obtain ⟨hall, hwf, hsz, hct⟩ := hfill buf xs hb hx
    exact (hfull _ v hwf).mpr hsz
  · intro buf x0 rest v hb hx
    obtain ⟨hall, hwf, hsz, hct⟩ := hfill buf (x0 :: rest) hb hx
    obtain ⟨hp1, hwf1, hsz1, hct1⟩ := spsc_pop_spec Cap _ hCap hwf
    constructor
    · rw [hp1, hct]
      rfl
    · cases hb2 : (SPSC.tryPush Cap
          (SPSC.tryPop Cap (SPSC.pushList Cap (SPSC.start buf) (x0 :: rest)).1).2 v).1 with
      | true => rfl
      | false =>
          have := (hfull _ v hwf1).mp hb2
          have hne : SPSC.size Cap (SPSC.tryPop Cap
              (SPSC.pushList Cap (SPSC.start buf) (x0 :: rest)).1).2 = Cap - 2 := by
            rw [hsz1, hsz]
            omega
          omega

/-- C6, witness: capacity 4 (2^2), elements 1,2,3 as in spec Scenario E:
three pushes succeed, the fourth fails, a pop yields 1, a push then
succeeds. -/
theorem C6_witness :
    (∃ k, 4 = 2 ^ k) ∧ 2 ≤ 4 ∧
    (SPSC.pushList 4 (SPSC.start [0, 0, 0, 0]) [1, 2, 3]).2.all (fun b => b) = true ∧
    (SPSC.tryPush 4 (SPSC.pushList 4 (SPSC.start ([0, 0, 0, 0] : List Nat))
      [1, 2, 3]).1 9).1 = false :=
  ⟨⟨2, rfl⟩, by omega,
   (C6_spsc_queue Nat 4 ⟨2, rfl⟩ (by omega)).1 [0, 0, 0, 0] [1, 2, 3] rfl rfl,
   (C6_spsc_queue Nat 4 ⟨2, rfl⟩ (by omega)).2.1 [0, 0, 0, 0] [1, 2, 3] 9 rfl rfl⟩

/-- Decompose an id-not-found fact over a cons of levels. -/
lemma findInLevels_none_cons {oid : Nat} {l : PriceLevel} {rest : List PriceLevel}
    (h : findInLevels oid (l :: rest) = none) :
    l.orders.find? (fun x => x.order_id == oid) = none ∧
    findInLevels oid rest = none := by
  unfold findInLevels at h
  cases hf : l.orders.find? (fun x => x.order_id == oid) with
  | some x => rw [hf] at h; exact absurd h (by simp)
  | none => rw [hf] at h; exact ⟨rfl, h⟩

/-- A no-match outcome: when the first opposite level already fails the
price check (or there is none), the crossing loop does nothing. -/
lemma matchSide_stopped (o : Order) (ls : List PriceLevel)
    (hstop : ∀ l, ls.head? = some l → priceStops o l.price) :
    matchSide o ls = ⟨o, ls, [], 0, 0, 0⟩ := by
  cases ls with
  | nil => rfl
  | cons lvl rest =>
      unfold matchSide
      by_cases hr : o.remainingQty ≤ 0
      · rw [if_pos hr]
      · rw [if_neg hr, if_pos (hstop lvl rfl)]

/-- An order that cannot match (POST_ONLY, or not marketable) is accepted,
rests via add_to_book on a pool-decremented book, and emits only its NEW
report. -/
lemma addOrder_rests (b : BookState) (o : Order)
    (hpool : b.poolFree ≠ 0) (hstat : o.status = OrderStatus.NEW)
    (hfil : o.filled_quantity = 0) (hqty : 0 < o.quantity)
    (hnm : o.type = OrderType.POST_ONLY ∨ ¬ wouldCross b o) :
    b.addOrder o = ⟨true, ({ b with poolFree := b.poolFree - 1 } : BookState).addToBook o,
      [ExecutionReport.makeNew o]⟩ := by
  have hrem : o.remainingQty = o.quantity := by simp [Order.remainingQty, hfil]
  have hact : o.isActive := Or.inl hstat
  have hrest : 0 < o.remainingQty ∧ o.isActive := ⟨by omega, hact⟩
  unfold BookState.addOrder
  rw [if_neg hpool]
  dsimp only
  by_cases hpo : o.type = OrderType.POST_ONLY
  · rw [if_pos hpo]
    dsimp only
    rw [if_pos hrest]
  · rcases hnm with hpo2 | hnc
    · exact absurd hpo2 hpo
    rw [if_neg hpo]
    have hstop : matchSide o (match o.side with
        | Side.BUY => b.asks
        | Side.SELL => b.bids) =
        ⟨o, (match o.side with | Side.BUY => b.asks | Side.SELL => b.bids),
         [], 0, 0, 0⟩ := by
      apply matchSide_stopped
      intro l hl
      unfold wouldCross at hnc
      cases hside : o.side with
      | BUY =>
          rw [hside] at hnc hl
          simp only [priceStops, hside]
          by_contra hge
          exact hnc ⟨l, by rw [hl]; rfl, by omega⟩
      | SELL =>
          rw [hside] at hnc hl
          simp only [priceStops, hside]
          by_contra hge
          exact hnc ⟨l, by rw [hl]; rfl, by omega⟩
    unfold BookState.afterMatch
    cases hside : o.side with
    | BUY =>
        rw [hside] at hstop
        simp only [hside, hstop]
        rw [if_pos hrest]
        show OpResult.mk true _ _ = _
        unfold BookState.addToBook
        simp only [hside, Nat.add_zero, add_zero]
    | SELL =>
        rw [hside] at hstop
        simp only [hside, hstop]
        rw [if_pos hrest]
        show OpResult.mk true _ _ = _
        unfold BookState.addToBook
        simp only [hside, Nat.add_zero, add_zero]

/-- After inserting a fresh order into the bid levels, the id lookup finds
exactly that order. -/
lemma findInLevels_insertBid (o : Order) (ls : List PriceLevel)
    (hfresh : findInLevels o.order_id ls = none) :
    findInLevels o.order_id (insertBid o ls) = some o := by
  induction ls with
  | nil =>
      show findInLevels o.order_id [PriceLevel.single o] = some o
      unfold findInLevels PriceLevel.single
      simp [List.find?]
  | cons l rest ih =>
      obtain ⟨hl, hrest⟩ := findInLevels_none_cons hfresh
      unfold insertBid
      by_cases h1 : o.price > l.price
      · rw [if_pos h1]
        unfold findInLevels PriceLevel.single
        simp [List.find?]
      · rw [if_neg h1]
        by_cases h2 : o.price = l.price
        · rw [if_pos h2]
          unfold findInLevels PriceLevel.addOrder
          show (match (l.orders ++ [o]).find? (fun x => x.order_id == o.order_id) with
            | some x => some x
            | none => findInLevels o.order_id rest) = some o
          rw [List.find?_append, hl]
          simp [List.find?]
        · rw [if_neg h2]
          unfold findInLevels
          rw [hl]
          exact ih hrest

/-- After inserting a fresh order into the ask levels, the id lookup finds
exactly that order. -/
lemma findInLevels_insertAsk (o : Order) (ls : List PriceLevel)
    (hfresh : findInLevels o.order_id ls = none) :
    findInLevels o.order_id (insertAsk o ls) = some o := by
  induction ls with
  | nil =>
      show findInLevels o.order_id [PriceLevel.single o] = some o
      unfold findInLevels PriceLevel.single
      simp [List.find?]
  | cons l rest ih =>
      obtain ⟨hl, hrest⟩ := findInLevels_none_cons hfresh
      unfold insertAsk
      by_cases h1 : o.price < l.price
      · rw [if_pos h1]
        unfold findInLevels PriceLevel.single
        simp [List.find?]
      · rw [if_neg h1]
        by_cases h2 : o.price = l.price
        · rw [if_pos h2]
          unfold findInLevels PriceLevel.addOrder
          show (match (l.orders ++ [o]).find? (fun x => x.order_id == o.order_id) with
            | some x => some x
            | none => findInLevels o.order_id rest) = some o
          rw [List.find?_append, hl]
          simp [List.find?]
        · rw [if_neg h2]
          unfold findInLevels
          rw [hl]
          exact ih hrest

/-- Unlinking a freshly appended order restores the level exactly. -/
lemma removeOrderById_addOrder (l : PriceLevel) (o : Order)
    (hfo : l.orders.find? (fun x => x.order_id == o.order_id) = none) :
    (l.addOrder o).removeOrderById o.order_id = l := by
  obtain ⟨lp, lo, lt, lc⟩ := l
  unfold PriceLevel.removeOrderById PriceLevel.addOrder
  have hfind : (lo ++ [o]).find? (fun x => x.order_id == o.order_id) = some o := by
    rw [List.find?_append, hfo]
    simp
  rw [hfind]
  dsimp only
  rw [List.eraseP_append_right _ (List.find?_eq_none.mp hfo)]
  have he : List.eraseP (fun x => x.order_id == o.order_id) [o] = [] := by
    simp [List.eraseP]
  rw [he, List.append_nil,
    show lt + o.remainingQty - o.remainingQty = lt from by ring,
    show lc + 1 - 1 = lc from by omega]

/-- Removing the freshly inserted order restores the bid levels exactly
(levels are non-empty, and the order's id occurs nowhere else). -/
lemma removeFromLevels_insertBid (o : Order) (ls : List PriceLevel)
    (hfresh : findInLevels o.order_id ls = none)
    (hne : ∀ l ∈ ls, l.orders ≠ []) :
    removeFromLevels o.price o.order_id (insertBid o ls) = ls := by
  induction ls with
  | nil =>
      show removeFromLevels o.price o.order_id [PriceLevel.single o] = []
      unfold removeFromLevels PriceLevel.single PriceLevel.removeOrderById
      simp [List.find?, List.eraseP]
  | cons l rest ih =>
      obtain ⟨hl, hrest⟩ := findInLevels_none_cons hfresh
      have hlne : l.orders ≠ [] := hne l (by simp)
      unfold insertBid
      by_cases h1 : o.price > l.price
      · rw [if_pos h1]
        unfold removeFromLevels PriceLevel.single PriceLevel.removeOrderById
        simp [List.find?, List.eraseP]
      · rw [if_neg h1]
        by_cases h2 : o.price = l.price
        · rw [if_pos h2]
          unfold removeFromLevels
          rw [if_pos (by unfold PriceLevel.addOrder; exact h2.symm)]
          dsimp only
          rw [removeOrderById_addOrder l o hl]
          rw [if_neg (by simpa using hlne)]
        · rw [if_neg h2]
          unfold removeFromLevels
          rw [if_neg (fun hc => h2 hc.symm)]
          rw [ih hrest (fun x hx => hne x (by simp [hx]))]

/-- Removing the freshly inserted order restores the ask levels exactly. -/
lemma removeFromLevels_insertAsk (o : Order) (ls : List PriceLevel)
    (hfresh : findInLevels o.order_id ls = none)
    (hne : ∀ l ∈ ls, l.orders ≠ []) :
    removeFromLevels o.price o.order_id (insertAsk o ls) = ls := by
  induction ls with
  | nil =>
      show removeFromLevels o.price o.order_id [PriceLevel.single o] = []
      unfold removeFromLevels PriceLevel.single PriceLevel.removeOrderById
      simp [List.find?, List.eraseP]
  | cons l rest ih =>
      obtain ⟨hl, hrest⟩ := findInLevels_none_cons hfresh
      have hlne : l.orders ≠ [] := hne l (by simp)
      unfold insertAsk
      by_cases h1 : o.price < l.price
      · rw [if_pos h1]
        unfold removeFromLevels PriceLevel.single PriceLevel.removeOrderById
        simp [List.find?, List.eraseP]
      · rw [if_neg h1]
        by_cases h2 : o.price = l.price
        · rw [if_pos h2]
          unfold removeFromLevels
          rw [if_pos (by unfold PriceLevel.addOrder; exact h2.symm)]
          dsimp only
          rw [removeOrderById_addOrder l o hl]
          rw [if_neg (by simpa using hlne)]
        · rw [if_neg h2]
          unfold removeFromLevels
          rw [if_neg (fun hc => h2 hc.symm)]
          rw [ih hrest (fun x hx => hne x (by simp [hx]))]

/-- C7, amended.  submit(x) then cancel(x) restores the book exactly when
x does not match on entry (POST_ONLY, or its price does not cross the
opposite best) and x is fresh (a new id, status NEW, nothing filled,
positive quantity, pool not exhausted): the add rests x, the cancel finds
and removes it, every observable component (levels with their aggregates,
id index, pool, counters) returns to its pre-submit value, and a second
cancel of the same id returns false and emits no report.  For an order
that does match on entry the claim fails (see the counterexample): fills
consume the opposite side and cannot be undone by cancel. -/
theorem C7_submit_cancel_restores (b : BookState) (o : Order)
    (hne : ∀ l, l ∈ b.bids ++ b.asks → l.orders ≠ [])
    (hfresh : b.findOrder o.order_id = none)
    (hpool : b.poolFree ≠ 0)
    (hstat : o.status = OrderStatus.NEW) (hfil : o.filled_quantity = 0)
    (hqty : 0 < o.quantity)
    (hnm : o.type = OrderType.POST_ONLY ∨ ¬ wouldCross b o) :
    ((b.addOrder o).book.cancelOrder o.order_id).ok = true ∧
    ((b.addOrder o).book.cancelOrder o.order_id).book = b ∧
    (((b.addOrder o).book.cancelOrder o.order_id).book.cancelOrder o.order_id).ok = false ∧
    (((b.addOrder o).book.cancelOrder o.order_id).book.cancelOrder o.order_id).reports = [] := by
  have hfb : findInLevels o.order_id b.bids = none := by
    unfold BookState.findOrder at hfresh
    cases hx : findInLevels o.order_id b.bids with
    | some x => rw [hx] at hfresh; exact absurd hfresh (by simp)
    | none => rfl
  have hfa : findInLevels o.order_id b.asks = none := by
    unfold BookState.findOrder at hfresh
    rw [hfb] at hfresh
    exact hfresh
  have hneb : ∀ l ∈ b.bids, l.orders ≠ [] :=
    fun l hl => hne l (List.mem_append.mpr (Or.inl hl))
  have hnea : ∀ l ∈ b.asks, l.orders ≠ [] :=
    fun l hl => hne l (List.mem_append.mpr (Or.inr hl))
  have hc2 : b.cancelOrder o.order_id = ⟨false, b, []⟩ := by
    unfold BookState.cancelOrder
    rw [hfresh]
  have hcancel : ((b.addOrder o).book).cancelOrder o.order_id =
      ⟨true, b, [ExecutionReport.makeCancel o.cancelO]⟩ := by
    rw [addOrder_rests b o hpool hstat hfil hqty hnm]
    show (({ b with poolFree := b.poolFree - 1 } : BookState).addToBook o).cancelOrder
        o.order_id = _
    cases hside : o.side with
    | BUY =>
        have hbook : ({ b with poolFree := b.poolFree - 1 } : BookState).addToBook o =
            { b with poolFree := b.poolFree - 1, bids := insertBid o b.bids } := by
          unfold BookState.addToBook
          simp only [hside]
        rw [hbook]
        have hfind :
            ({ b with poolFree := b.poolFree - 1, bids := insertBid o b.bids }
              : BookState).findOrder o.order_id = some o := by
          unfold BookState.findOrder
          dsimp only
          rw [findInLevels_insertBid o b.bids hfb]
        unfold BookState.cancelOrder
        rw [hfind]
        dsimp only
        have hcside : o.cancelO.side = o.side := rfl
        simp only [hcside, hside]
        show OpResult.mk true
            { bids := removeFromLevels o.cancelO.price o.order_id (insertBid o b.bids),
              asks := b.asks, poolFree := b.poolFree - 1 + 1,
              trades_matched := b.trades_matched,
              volume_matched := b.volume_matched }
            [ExecutionReport.makeCancel o.cancelO] = _
        have hcprice : o.cancelO.price = o.price := rfl
        rw [hcprice, removeFromLevels_insertBid o b.bids hfb hneb,
          show b.poolFree - 1 + 1 = b.poolFree from by omega]
    | SELL =>
        have hbook : ({ b with poolFree := b.poolFree - 1 } : BookState).addToBook o =
            { b with poolFree := b.poolFree - 1, asks := insertAsk o b.asks } := by
          unfold BookState.addToBook
          simp only [hside]
        rw [hbook]
        have hfind :
            ({ b with poolFree := b.poolFree - 1, asks := insertAsk o b.asks }
              : BookState).findOrder o.order_id = some o := by
          unfold BookState.findOrder
          dsimp only
          rw [hfb, findInLevels_insertAsk o b.asks hfa]
        unfold BookState.cancelOrder
        rw [hfind]
        dsimp only
        have hcside : o.cancelO.side = o.side := rfl
        simp only [hcside, hside]
        show OpResult.mk true
            { bids := b.bids,
              asks := removeFromLevels o.cancelO.price o.order_id (insertAsk o b.asks),
              poolFree := b.poolFree - 1 + 1,
              trades_matched := b.trades_matched,
              volume_matched := b.volume_matched }
            [ExecutionReport.makeCancel o.cancelO] = _
        have hcprice : o.cancelO.price = o.price := rfl
        rw [hcprice, removeFromLevels_insertAsk o b.asks hfa hnea,
          show b.poolFree - 1 + 1 = b.poolFree from by omega]
  rw [hcancel]
  exact ⟨rfl, rfl, by rw [hc2], by rw [hc2]⟩

/-- C7, witness: the amended theorem applied to the one-ask book and a
non-crossing BUY LIMIT 90 x 3 with fresh id 7. -/
theorem C7_witness :
    exBookAsk100.poolFree ≠ 0 ∧
    exBookAsk100.findOrder 7 = none ∧
    ((exBookAsk100.addOrder (exOrder 7 Side.BUY OrderType.LIMIT 90 3)).book.cancelOrder
      7).book = exBookAsk100 := by
  have hne : ∀ l, l ∈ exBookAsk100.bids ++ exBookAsk100.asks → l.orders ≠ [] := by
    intro l hl
    have hx : exBookAsk100.bids ++ exBookAsk100.asks =
        [⟨100, [exOrder 1 Side.SELL OrderType.LIMIT 100 10], 10, 1⟩] := by decide
    rw [hx] at hl
    rcases List.mem_singleton.mp hl with rfl
    decide
  have hnm : (exOrder 7 Side.BUY OrderType.LIMIT 90 3).type = OrderType.POST_ONLY ∨
      ¬ wouldCross exBookAsk100 (exOrder 7 Side.BUY OrderType.LIMIT 90 3) := by
    refine Or.inr ?_
    intro hc
    unfold wouldCross at hc
    obtain ⟨l, hl, hp⟩ := hc
    have hx : exBookAsk100.asks.head? =
        some ⟨100, [exOrder 1 Side.SELL OrderType.LIMIT 100 10], 10, 1⟩ := by decide
    rw [hx] at hl
    simp only [Option.elim] at hl
    rw [← hl] at hp
    revert hp
    decide
  exact ⟨by decide, by decide,
    (C7_submit_cancel_restores exBookAsk100 (exOrder 7 Side.BUY OrderType.LIMIT 90 3)
      hne (by decide) (by decide) (by decide) (by decide) (by decide) hnm).2.1⟩

/-- Order::fill leaves price and side untouched. -/
lemma fill_price (o : Order) (f : Int) : (o.fill f).price = o.price := rfl

lemma fill_side (o : Order) (f : Int) : (o.fill f).side = o.side := rfl

/-- The inner matching loop leaves the aggressor's price and side
untouched. -/
lemma matchLevel_agg_fields (agg : Order) (os : List Order) (t : Int) (c : Nat) :
    (matchLevel agg os t c).agg.price = agg.price ∧
    (matchLevel agg os t c).agg.side = agg.side := by
  induction os generalizing agg t c with
  | nil => exact ⟨rfl, rfl⟩
  | cons passive rest ih =>
      unfold matchLevel
      by_cases hg : agg.remainingQty ≤ 0
      · rw [if_pos hg]
        exact ⟨rfl, rfl⟩
      · rw [if_neg hg]
        by_cases hf : (passive.fill (min agg.remainingQty passive.remainingQty)).isFilled
        · rw [if_pos hf]
          dsimp only
          obtain ⟨ih1, ih2⟩ := ih (agg.fill (min agg.remainingQty passive.remainingQty)) _ _
          exact ⟨ih1.trans rfl, ih2.trans rfl⟩
        · rw [if_neg hf]
          exact ⟨rfl, rfl⟩

/-- When the inner loop leaves the level non-empty, the aggressor is
exhausted. -/
lemma matchLevel_stop (agg : Order) (os : List Order) (t : Int) (c : Nat) :
    (matchLevel agg os t c).orders ≠ [] →
    (matchLevel agg os t c).agg.remainingQty ≤ 0 := by
  induction os generalizing agg t c with
  | nil => intro h; exact absurd rfl h
  | cons passive rest ih =>
      intro h
      unfold matchLevel at h ⊢
      by_cases hg : agg.remainingQty ≤ 0
      · rw [if_pos hg] at h ⊢
        exact hg
      · rw [if_neg hg] at h ⊢
        by_cases hf : (passive.fill (min agg.remainingQty passive.remainingQty)).isFilled
        · rw [if_pos hf] at h ⊢
          exact ih _ _ _ h
        · rw [if_neg hf] at h ⊢
          show (agg.fill (min agg.remainingQty passive.remainingQty)).remainingQty ≤ 0
          unfold Order.isFilled Order.fill at hf
          simp only [not_le, ge_iff_le, not_lt] at hf
          rcases le_total agg.remainingQty passive.remainingQty with hle | hle
          · rw [min_eq_left hle]
            unfold Order.remainingQty Order.fill at *
            dsimp only at *
            omega
          · rw [min_eq_right hle] at hf ⊢
            unfold Order.remainingQty Order.fill at *
            dsimp only at *
            omega

/-- The outer matching loop only consumes leading opposite levels: the
remaining price list is a suffix of the original. -/
lemma matchSide_levels_suffix (agg : Order) (ls : List PriceLevel) :
    ((matchSide agg ls).levels.map PriceLevel.price) <:+ (ls.map PriceLevel.price) := by
  induction ls generalizing agg with
  | nil => exact List.suffix_refl _
  | cons lvl rest ih =>
      unfold matchSide
      by_cases hg : agg.remainingQty ≤ 0
      · rw [if_pos hg]
      · rw [if_neg hg]
        by_cases hp : priceStops agg lvl.price
        · rw [if_pos hp]
        · rw [if_neg hp]
          by_cases he : (matchLevel agg lvl.orders lvl.total_quantity lvl.order_count).orders.isEmpty
          · rw [if_pos he]
            dsimp only
            refine (ih _).trans ?_
            rw [List.map_cons]
            exact List.suffix_cons _ _
          · rw [if_neg he]
            show List.map PriceLevel.price (_ :: rest) <:+ List.map PriceLevel.price (lvl :: rest)
            rw [List.map_cons, List.map_cons]

/-- The outer matching loop leaves the aggressor's price and side
untouched. -/
lemma matchSide_agg_fields (agg : Order) (ls : List PriceLevel) :
    (matchSide agg ls).agg.price = agg.price ∧
    (matchSide agg ls).agg.side = agg.side := by
  induction ls generalizing agg with
  | nil => exact ⟨rfl, rfl⟩
  | cons lvl rest ih =>
      unfold matchSide
      by_cases hg : agg.remainingQty ≤ 0
      · rw [if_pos hg]; exact ⟨rfl, rfl⟩
      · rw [if_neg hg]
        by_cases hp : priceStops agg lvl.price
        · rw [if_pos hp]; exact ⟨rfl, rfl⟩
        · rw [if_neg hp]
          by_cases he : (matchLevel agg lvl.orders lvl.total_quantity lvl.order_count).orders.isEmpty
          · rw [if_pos he]
            dsimp only
            obtain ⟨ih1, ih2⟩ := ih (matchLevel agg lvl.orders lvl.total_quantity lvl.order_count).agg
            obtain ⟨m1, m2⟩ := matchLevel_agg_fields agg lvl.orders lvl.total_quantity lvl.order_count
            exact ⟨ih1.trans m1, ih2.trans m2⟩
          · rw [if_neg he]
            exact matchLevel_agg_fields agg lvl.orders lvl.total_quantity lvl.order_count

/-- priceStops only depends on the order's price and side. -/
lemma priceStops_congr (a b : Order) (hp : a.price = b.price)
    (hs : a.side = b.side) (p : Int) : priceStops a p ↔ priceStops b p := by
  unfold priceStops
  rw [hp, hs]

/-- When the outer loop leaves an opposite level in front, either the
aggressor is exhausted or its price fails against that level. -/
lemma matchSide_stops (agg : Order) (ls : List PriceLevel) :
    ∀ l rest2, (matchSide agg ls).levels = l :: rest2 →
    (matchSide agg ls).agg.remainingQty ≤ 0 ∨ priceStops agg l.price := by
  induction ls generalizing agg with
  | nil => intro l rest2 h; exact absurd h (by simp [matchSide])
  | cons lvl rest ih =>
      intro l rest2 h
      unfold matchSide at h ⊢
      by_cases hg : agg.remainingQty ≤ 0
      · rw [if_pos hg] at h ⊢
        exact Or.inl hg
      · rw [if_neg hg] at h ⊢
        by_cases hp : priceStops agg lvl.price
        · rw [if_pos hp] at h ⊢
          injection h with h1 _
          exact Or.inr (h1 ▸ hp)
        · rw [if_neg hp] at h ⊢
          by_cases he : (matchLevel agg lvl.orders lvl.total_quantity lvl.order_count).orders.isEmpty
          · rw [if_pos he] at h ⊢
            dsimp only at h ⊢
            rcases ih (matchLevel agg lvl.orders lvl.total_quantity lvl.order_count).agg
                l rest2 h with hrem | hps
            · exact Or.inl hrem
            · refine Or.inr ?_
              obtain ⟨m1, m2⟩ :=
                matchLevel_agg_fields agg lvl.orders lvl.total_quantity lvl.order_count
              exact (priceStops_congr _ _ m1 m2 l.price).mp hps
          · rw [if_neg he] at h ⊢
            injection h with h1 _
            refine Or.inl ?_
            have hno : (matchLevel agg lvl.orders lvl.total_quantity lvl.order_count).orders ≠ [] := by
              intro hc
              rw [hc] at he
              exact he rfl
            exact matchLevel_stop agg lvl.orders lvl.total_quantity lvl.order_count hno

/-- In an ascending chain, the head is a lower bound of the members. -/
lemma asc_head_le (y : Int) (rest : List Int) (x : Int)
    (hc : (y :: rest).Chain' (fun a b => a < b)) (hx : x ∈ y :: rest) : y ≤ x := by
  have hpw : (y :: rest).Pairwise (fun a b => a < b) :=
    List.chain'_iff_pairwise.mp hc
  rcases List.mem_cons.mp hx with rfl | hx2
  · exact le_refl _
  · exact le_of_lt ((List.pairwise_cons.mp hpw).1 x hx2)

/-- In a descending chain, the head is an upper bound of the members. -/
lemma desc_head_ge (y : Int) (rest : List Int) (x : Int)
    (hc : (y :: rest).Chain' (fun a b => b < a)) (hx : x ∈ y :: rest) : x ≤ y := by
  have hpw : (y :: rest).Pairwise (fun a b => b < a) :=
    List.chain'_iff_pairwise.mp hc
  rcases List.mem_cons.mp hx with rfl | hx2
  · exact le_refl _
  · exact le_of_lt ((List.pairwise_cons.mp hpw).1 x hx2)

/-- Head price of an insertion into the bid side: the new order's price or
the old head price. -/
lemma insertBid_headPrice (o : Order) (ls : List PriceLevel) :
    (insertBid o ls).head?.map PriceLevel.price = some o.price ∨
    (insertBid o ls).head?.map PriceLevel.price = ls.head?.map PriceLevel.price := by
  cases ls with
  | nil => exact Or.inl rfl
  | cons l rest =>
      unfold insertBid
      by_cases h1 : o.price > l.price
      · rw [if_pos h1]; exact Or.inl rfl
      · rw [if_neg h1]
        by_cases h2 : o.price = l.price
        · rw [if_pos h2]; exact Or.inr rfl
        · rw [if_neg h2]; exact Or.inr rfl

/-- Head price of an insertion into the ask side. -/
lemma insertAsk_headPrice (o : Order) (ls : List PriceLevel) :
    (insertAsk o ls).head?.map PriceLevel.price = some o.price ∨
    (insertAsk o ls).head?.map PriceLevel.price = ls.head?.map PriceLevel.price := by
  cases ls with
  | nil => exact Or.inl rfl
  | cons l rest =>
      unfold insertAsk
      by_cases h1 : o.price < l.price
      · rw [if_pos h1]; exact Or.inl rfl
      · rw [if_neg h1]
        by_cases h2 : o.price = l.price
        · rw [if_pos h2]; exact Or.inr rfl
        · rw [if_neg h2]; exact Or.inr rfl

/-- Insertion keeps the bid side strictly descending. -/
lemma insertBid_sorted (o : Order) (ls : List PriceLevel)
    (h : sortedDesc ls) : sortedDesc (insertBid o ls) := by
  induction ls with
  | nil =>
      show ([PriceLevel.single o].map PriceLevel.price).Chain' _
      simp
  | cons l rest ih =>
      unfold sortedDesc at h ⊢
      rw [List.map_cons] at h
      unfold insertBid
      by_cases h1 : o.price > l.price
      · rw [if_pos h1]
        show (List.map PriceLevel.price (PriceLevel.single o :: l :: rest)).Chain' _
        rw [List.map_cons, List.map_cons]
        exact List.chain'_cons.mpr ⟨h1, h⟩
      · rw [if_neg h1]
        by_cases h2 : o.price = l.price
        · rw [if_pos h2]
          show (List.map PriceLevel.price (l.addOrder o :: rest)).Chain' _
          rw [List.map_cons]
          exact h
        · rw [if_neg h2]
          show (List.map PriceLevel.price (l :: insertBid o rest)).Chain' _
          rw [List.map_cons]
          have htail : sortedDesc rest := (List.chain'_cons'.mp h).2
          refine List.chain'_cons'.mpr ⟨?_, ih htail⟩
          intro y hy
          have hy2 : (insertBid o rest).head?.map PriceLevel.price = some y := by
            rw [← List.head?_map]
            exact Option.mem_def.mp hy
          rcases insertBid_headPrice o rest with hh | hh
          · have h3 := hy2.symm.trans hh
            injection h3 with h4
            omega
          · have h3 := hy2.symm.trans hh
            cases hrest : rest with
            | nil =>
                rw [hrest] at h3
                exact absurd h3 (by simp)
            | cons r2 rest2 =>
                rw [hrest] at h3
                rw [show (r2 :: rest2).head? = some r2 from rfl, Option.map_some'] at h3
                injection h3 with h4
                have hrel : r2.price < l.price := (List.chain'_cons'.mp h).1 r2.price (by
                  rw [hrest, List.map_cons]; rfl)
                omega

/-- Insertion keeps the ask side strictly ascending. -/
lemma insertAsk_sorted (o : Order) (ls : List PriceLevel)
    (h : sortedAsc ls) : sortedAsc (insertAsk o ls) := by
  induction ls with
  | nil =>
      show ([PriceLevel.single o].map PriceLevel.price).Chain' _
      simp
  | cons l rest ih =>
      unfold sortedAsc at h ⊢
      rw [List.map_cons] at h
      unfold insertAsk
      by_cases h1 : o.price < l.price
      · rw [if_pos h1]
        show (List.map PriceLevel.price (PriceLevel.single o :: l :: rest)).Chain' _
        rw [List.map_cons, List.map_cons]
        exact List.chain'_cons.mpr ⟨h1, h⟩
      · rw [if_neg h1]
        by_cases h2 : o.price = l.price
        · rw [if_pos h2]
          show (List.map PriceLevel.price (l.addOrder o :: rest)).Chain' _
          rw [List.map_cons]
          exact h
        · rw [if_neg h2]
          show (List.map PriceLevel.price (l :: insertAsk o rest)).Chain' _
          rw [List.map_cons]
          have htail : sortedAsc rest := (List.chain'_cons'.mp h).2
          refine List.chain'_cons'.mpr ⟨?_, ih htail⟩
          intro y hy
          have hy2 : (insertAsk o rest).head?.map PriceLevel.price = some y := by
            rw [← List.head?_map]
            exact Option.mem_def.mp hy
          rcases insertAsk_headPrice o rest with hh | hh
          · have h3 := hy2.symm.trans hh
            injection h3 with h4
            omega
          · have h3 := hy2.symm.trans hh
            cases hrest : rest with
            | nil =>
                rw [hrest] at h3
                exact absurd h3 (by simp)
            | cons r2 rest2 =>
                rw [hrest] at h3
                rw [show (r2 :: rest2).head? = some r2 from rfl, Option.map_some'] at h3
                injection h3 with h4
                have hrel : l.price < r2.price := (List.chain'_cons'.mp h).1 r2.price (by
                  rw [hrest, List.map_cons]; rfl)
                omega

/-- Unlinking keeps a level's price. -/
lemma removeOrderById_price (l : PriceLevel) (oid : Nat) :
    (l.removeOrderById oid).price = l.price := by
  unfold PriceLevel.removeOrderById
  cases l.orders.find? (fun o => o.order_id == oid) <;> rfl

/-- Removal produces a price list that is a sublist of the original. -/
lemma removeFromLevels_price_sublist (p : Int) (oid : Nat) (ls : List PriceLevel) :
    List.Sublist ((removeFromLevels p oid ls).map PriceLevel.price)
      (ls.map PriceLevel.price) := by
  induction ls with
  | nil => exact List.Sublist.refl _
  | cons l rest ih =>
      unfold removeFromLevels
      by_cases h1 : l.price = p
      · rw [if_pos h1]
        dsimp only
        by_cases h2 : (l.removeOrderById oid).orders.isEmpty
        · rw [if_pos h2]
          rw [List.map_cons]
          exact (List.Sublist.refl _).cons _
        · rw [if_neg h2]
          rw [List.map_cons, List.map_cons, removeOrderById_price]
      · rw [if_neg h1]
        rw [List.map_cons, List.map_cons]
        exact ih.cons₂ _

/-- The in-place quantity update does not change the price structure. -/
lemma setQtyInLevels_price (p : Int) (oid : Nat) (q : Int) (ls : List PriceLevel) :
    (setQtyInLevels p oid q ls).map PriceLevel.price = ls.map PriceLevel.price := by
  induction ls with
  | nil => rfl
  | cons l rest ih =>
      unfold setQtyInLevels
      by_cases h1 : l.price = p
      · rw [if_pos h1]
        rw [List.map_cons, List.map_cons]
      · rw [if_neg h1]
        rw [List.map_cons, List.map_cons, ih]

/-- For ascending chains, shrinking to a sublist can only raise the head. -/
lemma asc_sublist_head (l1 l2 : List Int) (h : List.Sublist l1 l2)
    (hc : l2.Chain' (fun a b => a < b)) (x : Int) (hx : l1.head? = some x) :
    ∃ y, l2.head? = some y ∧ y ≤ x := by
  have hmem : x ∈ l2 := h.subset (List.mem_of_mem_head? hx)
  cases l2 with
  | nil => exact absurd hmem (List.not_mem_nil _)
  | cons y rest => exact ⟨y, rfl, asc_head_le y rest x hc hmem⟩

/-- For descending chains, shrinking to a sublist can only lower the head. -/
lemma desc_sublist_head (l1 l2 : List Int) (h : List.Sublist l1 l2)
    (hc : l2.Chain' (fun a b => b < a)) (x : Int) (hx : l1.head? = some x) :
    ∃ y, l2.head? = some y ∧ x ≤ y := by
  have hmem : x ∈ l2 := h.subset (List.mem_of_mem_head? hx)
  cases l2 with
  | nil => exact absurd hmem (List.not_mem_nil _)
  | cons y rest => exact ⟨y, rfl, desc_head_ge y rest x hc hmem⟩

/-- Resting a buy below every ask preserves sortedness and no-cross. -/
lemma noCross_insertBid (o : Order) (bids asks : List PriceLevel)
    (hbs : sortedDesc bids)
    (hnc : ∀ x y, bids.head?.map PriceLevel.price = some x →
        asks.head?.map PriceLevel.price = some y → x < y)
    (hlt : ∀ l, asks.head? = some l → o.price < l.price) :
    sortedDesc (insertBid o bids) ∧
    (∀ x y, (insertBid o bids).head?.map PriceLevel.price = some x →
        asks.head?.map PriceLevel.price = some y → x < y) := by
  refine ⟨insertBid_sorted o bids hbs, ?_⟩
  intro x y hx hy
  have hasky : ∃ la, asks.head? = some la ∧ la.price = y := by
    cases asks with
    | nil => exact absurd hy (by simp)
    | cons la rest =>
        refine ⟨la, rfl, ?_⟩
        rw [show (la :: rest).head? = some la from rfl, Option.map_some'] at hy
        injection hy
  obtain ⟨la, hla, hlay⟩ := hasky
  rcases insertBid_headPrice o bids with hh | hh
  · have hxo : x = o.price := by
      have h3 := hh.symm.trans hx
      injection h3 with h4
      exact h4.symm
    rw [hxo, ← hlay]
    exact hlt la hla
  · exact hnc x y (hh ▸ hx) hy

/-- Resting a sell above every bid preserves sortedness and no-cross. -/
lemma noCross_insertAsk (o : Order) (bids asks : List PriceLevel)
    (has : sortedAsc asks)
    (hnc : ∀ x y, bids.head?.map PriceLevel.price = some x →
        asks.head?.map PriceLevel.price = some y → x < y)
    (hgt : ∀ l, bids.head? = some l → l.price < o.price) :
    sortedAsc (insertAsk o asks) ∧
    (∀ x y, bids.head?.map PriceLevel.price = some x →
        (insertAsk o asks).head?.map PriceLevel.price = some y → x < y) := by
  refine ⟨insertAsk_sorted o asks has, ?_⟩
  intro x y hx hy
  have hbidx : ∃ lb, bids.head? = some lb ∧ lb.price = x := by
    cases bids with
    | nil => exact absurd hx (by simp)
    | cons lb rest =>
        refine ⟨lb, rfl, ?_⟩
        rw [show (lb :: rest).head? = some lb from rfl, Option.map_some'] at hx
        injection hx
  obtain ⟨lb, hlb, hlbx⟩ := hbidx
  rcases insertAsk_headPrice o asks with hh | hh
  · have hyo : y = o.price := by
      have h3 := hh.symm.trans hy
      injection h3 with h4
      exact h4.symm
    rw [hyo, ← hlbx]
    exact hgt lb hlb
  · exact hnc x y hx (hh ▸ hy)

/-- No-cross survives shrinking the ask side (matching or removal): the
best ask can only rise. -/
lemma noCross_asks_shrunk (bids asks asks' : List PriceLevel)
    (has : sortedAsc asks)
    (hnc : ∀ x y, bids.head?.map PriceLevel.price = some x →
        asks.head?.map PriceLevel.price = some y → x < y)
    (hsub : List.Sublist (asks'.map PriceLevel.price) (asks.map PriceLevel.price)) :
    ∀ x y, bids.head?.map PriceLevel.price = some x →
        asks'.head?.map PriceLevel.price = some y → x < y := by
  intro x y hx hy
  have hy' : (asks'.map PriceLevel.price).head? = some y := by
    rw [List.head?_map]; exact hy
  obtain ⟨y0, hy0, hle⟩ := asc_sublist_head _ _ hsub has y hy'
  have hy0' : asks.head?.map PriceLevel.price = some y0 := by
    rw [← List.head?_map]; exact hy0
  exact lt_of_lt_of_le (hnc x y0 hx hy0') hle

/-- No-cross survives shrinking the bid side: the best bid can only
fall. -/
lemma noCross_bids_shrunk (bids' bids asks : List PriceLevel)
    (hbs : sortedDesc bids)
    (hnc : ∀ x y, bids.head?.map PriceLevel.price = some x →
        asks.head?.map PriceLevel.price = some y → x < y)
    (hsub : List.Sublist (bids'.map PriceLevel.price) (bids.map PriceLevel.price)) :
    ∀ x y, bids'.head?.map PriceLevel.price = some x →
        asks.head?.map PriceLevel.price = some y → x < y := by
  intro x y hx hy
  have hx' : (bids'.map PriceLevel.price).head? = some x := by
    rw [List.head?_map]; exact hx
  obtain ⟨x0, hx0, hle⟩ := desc_sublist_head _ _ hsub hbs x hx'
  have hx0' : bids.head?.map PriceLevel.price = some x0 := by
    rw [← List.head?_map]; exact hx0
  exact lt_of_le_of_lt hle (hnc x0 y hx0' hy)

/-- add_order preserves sortedness and no-cross, provided a POST_ONLY
order is only added when it is not marketable (orders are fresh: NEW,
nothing filled). -/
lemma addOrder_WF (b : BookState) (o : Order) (hwf : BookWF b)
    (hsafe : o.type = OrderType.POST_ONLY → ¬ wouldCross b o) :
    BookWF (b.addOrder o).book := by
  obtain ⟨⟨hbs, has⟩, hnc⟩ := hwf
  have hnc' : ∀ x y, b.bids.head?.map PriceLevel.price = some x →
      b.asks.head?.map PriceLevel.price = some y → x < y :=
    fun x y hx hy => hnc x y hx hy
  unfold BookState.addOrder
  by_cases hpool : b.poolFree = 0
  · rw [if_pos hpool]
    exact ⟨⟨hbs, has⟩, hnc⟩
  rw [if_neg hpool]
  dsimp only
  by_cases hpo : o.type = OrderType.POST_ONLY
  · rw [if_pos hpo]
    dsimp only
    by_cases hrest : 0 < o.remainingQty ∧ o.isActive
    · rw [if_pos hrest]
      have hncross := hsafe hpo
      unfold BookState.addToBook
      unfold wouldCross at hncross
      cases hside : o.side with
      | BUY =>
          simp only [hside]
          rw [hside] at hncross
          have hlt : ∀ l, b.asks.head? = some l → o.price < l.price := by
            intro l hl
            by_contra hge
            exact hncross ⟨l, by rw [hl]; rfl, by omega⟩
          obtain ⟨hs2, hc2⟩ := noCross_insertBid o b.bids b.asks hbs hnc' hlt
          exact ⟨⟨hs2, has⟩, fun x y hx hy => hc2 x y hx hy⟩
      | SELL =>
          simp only [hside]
          rw [hside] at hncross
          have hgt : ∀ l, b.bids.head? = some l → l.price < o.price := by
            intro l hl
            by_contra hge
            exact hncross ⟨l, by rw [hl]; rfl, by omega⟩
          obtain ⟨hs2, hc2⟩ := noCross_insertAsk o b.bids b.asks has hnc' hgt
          exact ⟨⟨hbs, hs2⟩, fun x y hx hy => hc2 x y hx hy⟩
    · rw [if_neg hrest]
      by_cases hz : o.remainingQty = 0
      · rw [if_pos hz]
        exact ⟨⟨hbs, has⟩, fun x y hx hy => hnc' x y hx hy⟩
      · rw [if_neg hz]
        exact ⟨⟨hbs, has⟩, fun x y hx hy => hnc' x y hx hy⟩
  · rw [if_neg hpo]
    unfold BookState.afterMatch
    cases hside : o.side with
    | BUY =>
        simp only [hside]
        have hsuf := matchSide_levels_suffix o b.asks
        have has2 : sortedAsc (matchSide o b.asks).levels :=
          List.Chain'.suffix has hsuf
        have hnc2 := noCross_asks_shrunk b.bids b.asks (matchSide o b.asks).levels
          has hnc' hsuf.sublist
        by_cases hrest : 0 < (matchSide o b.asks).agg.remainingQty ∧
            (matchSide o b.asks).agg.isActive
        · rw [if_pos hrest]
          unfold BookState.addToBook
          have hsideagg : (matchSide o b.asks).agg.side = Side.BUY := by
            rw [(matchSide_agg_fields o b.asks).2, hside]
          simp only [hsideagg]
          have hlt : ∀ l, (matchSide o b.asks).levels.head? = some l →
              (matchSide o b.asks).agg.price < l.price := by
            intro l hl
            cases hlv : (matchSide o b.asks).levels with
            | nil => rw [hlv] at hl; exact absurd hl (by simp)
            | cons l0 rest2 =>
                rw [hlv] at hl
                have hl0 : l0 = l := by injection hl
                subst hl0
                rcases matchSide_stops o b.asks l0 rest2 hlv with hr0 | hps
                · exact absurd hrest.1 (by omega)
                · simp only [priceStops, hside] at hps
                  rw [(matchSide_agg_fields o b.asks).1]
                  exact hps
          obtain ⟨hs2, hc2⟩ := noCross_insertBid (matchSide o b.asks).agg b.bids
            (matchSide o b.asks).levels hbs hnc2 hlt
          exact ⟨⟨hs2, has2⟩, fun x y hx hy => hc2 x y hx hy⟩
        · rw [if_neg hrest]
          by_cases hz : (matchSide o b.asks).agg.remainingQty = 0
          · rw [if_pos hz]
            exact ⟨⟨hbs, has2⟩, fun x y hx hy => hnc2 x y hx hy⟩
          · rw [if_neg hz]
            exact ⟨⟨hbs, has2⟩, fun x y hx hy => hnc2 x y hx hy⟩
    | SELL =>
        simp only [hside]
        have hsuf := matchSide_levels_suffix o b.bids
        have hbs2 : sortedDesc (matchSide o b.bids).levels :=
          List.Chain'.suffix hbs hsuf
        have hnc2 := noCross_bids_shrunk (matchSide o b.bids).levels b.bids b.asks
          hbs hnc' hsuf.sublist
        by_cases hrest : 0 < (matchSide o b.bids).agg.remainingQty ∧
            (matchSide o b.bids).agg.isActive
        · rw [if_pos hrest]
          unfold BookState.addToBook
          have hsideagg : (matchSide o b.bids).agg.side = Side.SELL := by
            rw [(matchSide_agg_fields o b.bids).2, hside]
          simp only [hsideagg]
          have hgt : ∀ l, (matchSide o b.bids).levels.head? = some l →
              l.price < (matchSide o b.bids).agg.price := by
            intro l hl
            cases hlv : (matchSide o b.bids).levels with
            | nil => rw [hlv] at hl; exact absurd hl (by simp)
            | cons l0 rest2 =>
                rw [hlv] at hl
                have hl0 : l0 = l := by injection hl
                subst hl0
                rcases matchSide_stops o b.bids l0 rest2 hlv with hr0 | hps
                · exact absurd hrest.1 (by omega)
                · simp only [priceStops, hside] at hps
                  rw [(matchSide_agg_fields o b.bids).1]
                  omega
          obtain ⟨hs2, hc2⟩ := noCross_insertAsk (matchSide o b.bids).agg
            (matchSide o b.bids).levels b.asks has hnc2 hgt
          exact ⟨⟨hbs2, hs2⟩, fun x y hx hy => hc2 x y hx hy⟩
        · rw [if_neg hrest]
          by_cases hz : (matchSide o b.bids).agg.remainingQty = 0
          · rw [if_pos hz]
            exact ⟨⟨hbs2, has⟩, fun x y hx hy => hnc2 x y hx hy⟩
          · rw [if_neg hz]
            exact ⟨⟨hbs2, has⟩, fun x y hx hy => hnc2 x y hx hy⟩

/-- cancel_order preserves sortedness and no-cross. -/
lemma cancelOrder_WF (b : BookState) (oid : Nat) (hwf : BookWF b) :
    BookWF (b.cancelOrder oid).book := by
  obtain ⟨⟨hbs, has⟩, hnc⟩ := hwf
  have hnc' : ∀ x y, b.bids.head?.map PriceLevel.price = some x →
      b.asks.head?.map PriceLevel.price = some y → x < y :=
    fun x y hx hy => hnc x y hx hy
  unfold BookState.cancelOrder
  cases hf : b.findOrder oid with
  | none => exact ⟨⟨hbs, has⟩, hnc⟩
  | some o =>
      dsimp only
      cases hside : o.cancelO.side with
      | BUY =>
          simp only [hside]
          have hsub := removeFromLevels_price_sublist o.cancelO.price oid b.bids
          exact ⟨⟨List.Chain'.sublist hbs hsub, has⟩,
            fun x y hx hy =>
              noCross_bids_shrunk _ b.bids b.asks hbs hnc' hsub x y hx hy⟩
      | SELL =>
          simp only [hside]
          have hsub := removeFromLevels_price_sublist o.cancelO.price oid b.asks
          exact ⟨⟨hbs, List.Chain'.sublist has hsub⟩,
            fun x y hx hy =>
              noCross_asks_shrunk b.bids b.asks _ has hnc' hsub x y hx hy⟩

/-- modify_order preserves sortedness and no-cross under the trace safety
condition (a POST_ONLY resubmitted by modify must not be marketable). -/
lemma modifyOrder_WF (b : BookState) (oid : Nat) (p q : Int) (hwf : BookWF b)
    (hsafe : safeOp b (BookOp.modify oid p q)) :
    BookWF (b.modifyOrder oid p q).book := by
  obtain ⟨⟨hbs, has⟩, hnc⟩ := hwf
  have hnc' : ∀ x y, b.bids.head?.map PriceLevel.price = some x →
      b.asks.head?.map PriceLevel.price = some y → x < y :=
    fun x y hx hy => hnc x y hx hy
  unfold BookState.modifyOrder
  cases hf : b.findOrder oid with
  | none => exact ⟨⟨hbs, has⟩, hnc⟩
  | some o =>
      dsimp only
      by_cases hip : p = o.price ∧ q < o.remainingQty
      · rw [if_pos hip]
        cases hside : o.side with
        | BUY =>
            simp only [hside]
            have hmap := setQtyInLevels_price o.price oid (o.filled_quantity + q) b.bids
            refine ⟨⟨?_, has⟩, ?_⟩
            · unfold sortedDesc
              rw [hmap]
              exact hbs
            · intro x y hx hy
              refine hnc' x y ?_ hy
              rw [← List.head?_map, ← hmap, List.head?_map]
              exact hx
        | SELL =>
            simp only [hside]
            have hmap := setQtyInLevels_price o.price oid (o.filled_quantity + q) b.asks
            refine ⟨⟨hbs, ?_⟩, ?_⟩
            · unfold sortedAsc
              rw [hmap]
              exact has
            · intro x y hx hy
              refine hnc' x y hx ?_
              rw [← List.head?_map, ← hmap, List.head?_map]
              exact hy
      · rw [if_neg hip]
        have hcwf : BookWF (b.cancelOrder oid).book :=
          cancelOrder_WF b oid ⟨⟨hbs, has⟩, hnc⟩
        refine addOrder_WF (b.cancelOrder oid).book _ hcwf ?_
        intro hpo
        exact hsafe o hf hip hpo

/-- One safe top-level operation preserves the invariant. -/
lemma stepOp_WF (b : BookState) (op : BookOp) (hwf : BookWF b)
    (hsafe : safeOp b op) : BookWF (stepOp b op) := by
  cases op with
  | add o => exact addOrder_WF b o hwf hsafe.2.2
  | cancel oid => exact cancelOrder_WF b oid hwf
  | modify oid p q => exact modifyOrder_WF b oid p q hwf hsafe

/-- C3, amended.  For every sequence of top-level operations (add_order
with any order type, cancel_order, modify_order) starting from a book
satisfying the sorted/no-cross invariant, the book still satisfies
best_bid < best_ask (whenever both are defined) after every operation,
provided every POST_ONLY order inserted (directly, or via the resubmit
path of modify_order) is not marketable at its insertion time.  The
crossing POST_ONLY case genuinely breaks the invariant (see the
counterexample), which forces exactly this proviso. -/
theorem C3_no_cross_invariant (ops : List BookOp) (b : BookState)
    (hwf : BookWF b) (hsafe : SafeTrace b ops) :
    ∀ x y, (runOps b ops).bestBid = some x → (runOps b ops).bestAsk = some y →
      x < y := by
  suffices h : BookWF (runOps b ops) from h.2
  induction ops generalizing b with
  | nil => exact hwf
  | cons op rest ih =>
      obtain ⟨hop, hrest⟩ := hsafe
      exact ih (stepOp b op) (stepOp_WF b op hwf hop) hrest

/-- C3, witness: from the empty book, rest an ask at 100 then a bid at 90
(both LIMIT, hence safe); the invariant theorem applies, and the final
bests 90 < 100 confirm it on this run. -/
theorem C3_witness :
    BookWF BookState.empty ∧ SafeTrace BookState.empty exC3Ops ∧
    (runOps BookState.empty exC3Ops).bestBid = some 90 ∧
    (runOps BookState.empty exC3Ops).bestAsk = some 100 ∧ (90 : Int) < 100 := by
  have hwf : BookWF BookState.empty := by
    refine ⟨⟨?_, ?_⟩, ?_⟩
    · exact List.chain'_nil
    · exact List.chain'_nil
    · intro x y hx hy
      simp [BookState.bestBid, BookState.empty] at hx
  have hsafe : SafeTrace BookState.empty exC3Ops := by
    refine ⟨⟨by decide, by decide, fun hpo => absurd hpo (by decide)⟩,
      ⟨by decide, by decide, fun hpo => absurd hpo (by decide)⟩, trivial⟩
  refine ⟨hwf, hsafe, by decide, by decide, ?_⟩
  exact C3_no_cross_invariant exC3Ops BookState.empty hwf hsafe 90 100
    (by decide) (by decide)

/-- insertSorted produces a permutation of consing the element. -/
lemma insertSorted_perm (x : ℚ) (l : List ℚ) :
    (insertSorted x l).Perm (x :: l) := by
  induction l with
  | nil => simp [insertSorted]
  | cons y rest ih =>
      unfold insertSorted
      by_cases h : x ≤ y
      · rw [if_pos h]
      · rw [if_neg h]
        exact (List.Perm.cons y ih).trans (List.Perm.swap x y rest)

/-- sortQ permutes its input. -/
lemma sortQ_perm (l : List ℚ) : (sortQ l).Perm l := by
  induction l with
  | nil => simp [sortQ]
  | cons x rest ih =>
      unfold sortQ
      exact (insertSorted_perm x (sortQ rest)).trans (List.Perm.cons x ih)

/-- C8, amended.  stats.percentile(p) linearly interpolates between the
sorted samples at the truncated rank and the next index; whenever the rank
p/100 * (n-1) is an integer k (in particular for p = 0, p = 100 or n = 1)
the returned value is the sorted sample at index k — the nearest-rank
element the claim describes — and hence is one of the recorded samples.
For fractional ranks the value is interpolated and need not be a sample
(see the counterexample). -/
theorem C8_percentile_integral_rank (samples : List ℚ) (p : ℚ) (k : Nat)
    (hne : samples ≠ []) (hp0 : 0 ≤ p) (hp1 : p ≤ 100)
    (hk : (p / 100) * ((samples.length : ℚ) - 1) = (k : ℚ)) :
    percentileQ samples p = (sortQ samples).getD k 0 ∧
    percentileQ samples p ∈ samples := by
  have hlen : (sortQ samples).length = samples.length :=
    (sortQ_perm samples).length_eq
  have hm1 : 1 ≤ samples.length := by
    cases samples with
    | nil => exact absurd rfl hne
    | cons a l => simp
  have hkm : k < samples.length := by
    have hple : p / 100 ≤ 1 := by
      rw [div_le_one (by norm_num)]
      exact hp1
    have hnn : (0:ℚ) ≤ (samples.length : ℚ) - 1 := by
      have : (1:ℚ) ≤ (samples.length : ℚ) := by exact_mod_cast hm1
      linarith
    have hle : (k : ℚ) ≤ (samples.length : ℚ) - 1 := by
      rw [← hk]
      calc (p / 100) * ((samples.length : ℚ) - 1)
          ≤ 1 * ((samples.length : ℚ) - 1) := mul_le_mul_of_nonneg_right hple hnn
        _ = (samples.length : ℚ) - 1 := one_mul _
    have : (k : ℚ) < (samples.length : ℚ) := by linarith
    exact_mod_cast this
  have hval : percentileQ samples p = (sortQ samples).getD k 0 := by
    unfold percentileQ
    rw [if_neg hne]
    simp only [hlen, hk, truncIndex_natCast]
    ring
  refine ⟨hval, ?_⟩
  rw [hval]
  have hklt : k < (sortQ samples).length := by rw [hlen]; exact hkm
  rw [List.getD_eq_getElem _ _ hklt]
  exact (sortQ_perm samples).mem_iff.mp (List.getElem_mem hklt)

/-- C8, witness: the amended theorem applied at samples {3, 1, 2} and
p = 50, where the rank (50/100)(3-1) = 1 is integral. -/
theorem C8_witness :
    ([3, 1, 2] : List ℚ) ≠ [] ∧ (0 : ℚ) ≤ 50 ∧ (50 : ℚ) ≤ 100 ∧
    percentileQ [3, 1, 2] 50 ∈ ([3, 1, 2] : List ℚ) :=
  ⟨by decide, by norm_num, by norm_num,
   (C8_percentile_integral_rank [3, 1, 2] 50 1 (by decide) (by norm_num)
     (by norm_num) (by norm_num)).2⟩

end HFT
